import Mathlib

/-!
Verification development for the Avatar-Heightmap-Viewer terrain tools.

The definitions in this file are a shallow embedding of the Python sources
`Terrain_Data_To_Heightmap_Avatar_Water_Test.py` (and the identical decoder in
`Terrain_Data_To_Heightmap_Avatar.py`):

* the binary sector decoder `load_single_sector` (708-byte header skip, 65*65
  little-endian 16-bit cells with a 2-byte skip after each, `raw / 128` heights,
  homogeneity check performed by `np.array`),
* the directory loader `load_sectors` (per-sector failures are dropped),
* the water record parser `parse_water_from_sector` (IEEE-754 binary32 read at
  fixed offset 0xB0, best-effort material-path search),
* the ordering-policy resolver `get_sector_index_from_position`,
* the seam-blending compositor `apply_seam_blending` (weight masks, ramp
  functions, accumulation and normalisation), and
* the display compositor `update_display` (standard and seam-blending paths,
  missing-sector bookkeeping, rotation of the finished texture buffer).

Byte buffers are `List ℕ` (each entry one byte), heights are exact rationals,
and fallible operations return `Option`.
-/

set_option maxRecDepth 10000

/-- `l.getD i 0`: the byte at index `i` of a buffer, `0` past the end. -/
def byteAt (l : List ℕ) (i : ℕ) : ℕ := l.getD i 0

/-- One pass of the inner cell loop of `load_single_sector`: for up to `n`
cells, read 2 bytes (stop early when fewer than 2 remain), interpret them as a
little-endian 16-bit integer divided by 128, then skip 2 further bytes.
Returns the row together with the unread remainder of the buffer. -/
def readCells : ℕ → List ℕ → List ℚ × List ℕ
  | 0, buf => ([], buf)
  | n + 1, buf =>
    if buf.length < 2 then ([], buf)
    else
      let h : ℚ := ((byteAt buf 0 + 256 * byteAt buf 1 : ℕ) : ℚ) / 128
      let rest := (buf.drop 2).drop 2
      let res := readCells n rest
      (h :: res.1, res.2)

/-- The outer row loop of `load_single_sector`: `n` rows of up to 65 cells,
threading the buffer cursor through `readCells`. -/
def readRows : ℕ → List ℕ → List (List ℚ)
  | 0, _ => []
  | n + 1, buf =>
    let res := readCells 65 buf
    res.1 :: readRows n res.2

/-- `load_single_sector`: skip the 708-byte header, read at most 16900 bytes of
terrain payload, decode 65 rows, and build the final array.  `np.array` on the
65 collected rows succeeds exactly when all rows have equal length (otherwise
the ragged input raises and the `except` branch returns `None`). -/
def load_single_sector (data : List ℕ) : Option (List (List ℚ)) :=
  let terrain := (data.drop 708).take 16900
  let rows := readRows 65 terrain
  if rows.all (fun r => r.length == (rows.getD 0 []).length) then some rows
  else none

/-- `load_sectors`, restricted to its decoding core: the caller supplies
`(sectorIndex, bytes)` pairs; sectors whose decode fails are dropped, the rest
are stored. -/
def load_sectors (files : List (ℕ × List ℕ)) : List (ℕ × List (List ℚ)) :=
  files.filterMap fun p => (load_single_sector p.2).map fun g => (p.1, g)

/-- The grid that a fully readable sector buffer decodes to: cell `(y, x)` is
the little-endian 16-bit integer at byte offset `708 + 4*(65*y + x)`, divided
by 128. -/
def decodedGrid (data : List ℕ) : List (List ℚ) :=
  (List.range 65).map fun y => (List.range 65).map fun x =>
    ((byteAt data (708 + 4 * (65 * y + x)) : ℚ) +
      256 * byteAt data (708 + 4 * (65 * y + x) + 1)) / 128

lemma readCells_length (n : ℕ) : ∀ buf : List ℕ,
    (readCells n buf).1.length = min n ((buf.length + 2) / 4) ∧
      (readCells n buf).2.length = buf.length - 4 * min n ((buf.length + 2) / 4) := by
  induction n with
  | zero => intro buf; simp [readCells]
  | succ n ih =>
    intro buf
    by_cases h : buf.length < 2
    · simp only [readCells, if_pos h]
      refine ⟨?_, ?_⟩
      · show (0 : ℕ) = _
        omega
      · show buf.length = _
        omega
    · have hrest : ((buf.drop 2).drop 2).length = buf.length - 4 := by
        rw [List.length_drop, List.length_drop]
        omega
      obtain ⟨ih1, ih2⟩ := ih ((buf.drop 2).drop 2)
      rw [hrest] at ih1 ih2
      simp only [readCells, if_neg h]
      constructor
      · simp only [List.length_cons, ih1]; omega
      · simp only [ih2, hrest]; omega

lemma readRows_length (n : ℕ) (buf : List ℕ) : (readRows n buf).length = n := by
  induction n generalizing buf with
  | zero => simp [readRows]
  | succ n ih => simp [readRows, ih]

lemma readRows_getD_length (n : ℕ) : ∀ (buf : List ℕ) (k : ℕ), k < n →
    ((readRows n buf).getD k []).length =
      min 65 ((buf.length - 260 * k + 2) / 4) := by
  induction n with
  | zero => intro buf k hk; omega
  | succ n ih =>
    intro buf k hk
    obtain ⟨hc1, hc2⟩ := readCells_length 65 buf
    match k with
    | 0 =>
      simp only [readRows, List.getD_cons_zero, hc1]
      omega
    | k + 1 =>
      have hk' : k < n := by omega
      simp only [readRows, List.getD_cons_succ]
      rw [ih _ k hk', hc2]
      omega

lemma byteAt_drop (l : List ℕ) : ∀ (k i : ℕ), byteAt (l.drop k) i = byteAt l (k + i) := by
  induction l with
  | nil => intro k i; simp [byteAt]
  | cons a t ih =>
    intro k i
    match k with
    | 0 => simp
    | k + 1 =>
      show byteAt (t.drop k) i = byteAt (a :: t) (k + 1 + i)
      rw [ih k i]
      have e : k + 1 + i = k + i + 1 := by omega
      rw [e]
      simp [byteAt, List.getD_cons_succ]

lemma byteAt_take_of_lt (l : List ℕ) : ∀ (n i : ℕ), i < n → byteAt (l.take n) i = byteAt l i := by
  induction l with
  | nil => intro n i _; simp [byteAt]
  | cons a t ih =>
    intro n i hi
    match n, i with
    | n + 1, 0 => simp [byteAt]
    | n + 1, i + 1 =>
      show byteAt (t.take n) i = byteAt t i
      exact ih n i (by omega)

lemma getD_mem {α : Type} (d : α) : ∀ (l : List α) (i : ℕ), i < l.length → l.getD i d ∈ l := by
  intro l
  induction l with
  | nil => intro i hi; simp at hi
  | cons a t ih =>
    intro i hi
    match i with
    | 0 => simp
    | i + 1 =>
      simp only [List.getD_cons_succ]
      exact List.mem_cons_of_mem a (ih i (by simpa using hi))

lemma readCells_complete (n : ℕ) : ∀ buf : List ℕ, 4 * n ≤ buf.length + 2 →
    (readCells n buf).1 = (List.range n).map (fun i =>
        ((byteAt buf (4 * i) : ℚ) + 256 * byteAt buf (4 * i + 1)) / 128) ∧
      (readCells n buf).2 = buf.drop (4 * n) := by
  induction n with
  | zero => intro buf _; simp [readCells]
  | succ n ih =>
    intro buf hlen
    have h2 : ¬ buf.length < 2 := by omega
    have hdrop : (buf.drop 2).drop 2 = buf.drop 4 := by
      rw [List.drop_drop]
    have hrestlen : (buf.drop 4).length = buf.length - 4 := by
      rw [List.length_drop]
    obtain ⟨ih1, ih2⟩ := ih (buf.drop 4) (by omega)
    simp only [readCells, if_neg h2, hdrop]
    constructor
    · rw [ih1, List.range_succ_eq_map, List.map_cons, List.map_map]
      refine congrArg₂ List.cons (by norm_num) ?_
      refine List.map_congr_left ?_
      intro i _
      simp only [Function.comp_apply, byteAt_drop]
      have e1 : 4 + 4 * i = 4 * (i + 1) := by ring
      have e2 : 4 + (4 * i + 1) = 4 * (i + 1) + 1 := by ring
      rw [e1, e2]
    · rw [ih2, List.drop_drop]
      congr 1
      ring

lemma readRows_complete (n : ℕ) : ∀ buf : List ℕ, 260 * n ≤ buf.length + 2 →
    readRows n buf = (List.range n).map (fun y => (List.range 65).map (fun x =>
      ((byteAt buf (260 * y + 4 * x) : ℚ) +
        256 * byteAt buf (260 * y + 4 * x + 1)) / 128)) := by
  induction n with
  | zero => intro buf _; simp [readRows]
  | succ n ih =>
    intro buf hlen
    obtain ⟨hc1, hc2⟩ := readCells_complete 65 buf (by omega)
    have hrestlen : (buf.drop 260).length = buf.length - 260 := by
      rw [List.length_drop]
    simp only [readRows]
    rw [hc2]
    show (readCells 65 buf).1 :: readRows n (buf.drop (4 * 65)) = _
    rw [show List.range (n + 1) = 0 :: List.map Nat.succ (List.range n) from
      List.range_succ_eq_map n]
    rw [List.map_cons, List.map_map]
    refine congrArg₂ List.cons ?_ ?_
    · rw [hc1]
      refine List.map_congr_left ?_
      intro x _
      norm_num
    · show readRows n (buf.drop 260) = _
      rw [ih (buf.drop 260) (by omega)]
      refine List.map_congr_left ?_
      intro y _
      simp only [Function.comp_apply]
      refine List.map_congr_left ?_
      intro x _
      simp only [Function.comp_apply, byteAt_drop]
      have e1 : 260 + (260 * y + 4 * x) = 260 * (y + 1) + 4 * x := by ring
      have e2 : 260 + (260 * y + 4 * x + 1) = 260 * (y + 1) + 4 * x + 1 := by ring
      rw [e1, e2]

lemma terrain_length (data : List ℕ) :
    ((data.drop 708).take 16900).length = min 16900 (data.length - 708) := by
  rw [List.length_take, List.length_drop]

/-- Buffers with at least `708 + 16898` bytes decode completely: the trailing
2-byte skip of the very last cell is never length-checked, so the full 65×65
grid is produced. -/
lemma load_single_sector_complete (data : List ℕ) (hlen : 17606 ≤ data.length) :
    load_single_sector data = some (decodedGrid data) := by
  have hterr : ((data.drop 708).take 16900).length = min 16900 (data.length - 708) :=
    terrain_length data
  have hterrge : 16898 ≤ ((data.drop 708).take 16900).length := by omega
  have hrows := readRows_complete 65 ((data.drop 708).take 16900) (by omega)
  have hcell : ∀ y ∈ List.range 65, ∀ x ∈ List.range 65,
      (((byteAt ((data.drop 708).take 16900) (260 * y + 4 * x) : ℚ) +
        256 * byteAt ((data.drop 708).take 16900) (260 * y + 4 * x + 1)) / 128)
      = ((byteAt data (708 + 4 * (65 * y + x)) : ℚ) +
          256 * byteAt data (708 + 4 * (65 * y + x) + 1)) / 128 := by
    intro y hy x hx
    rw [List.mem_range] at hy hx
    have h1 : 260 * y + 4 * x < 16900 := by omega
    have h2 : 260 * y + 4 * x + 1 < 16900 := by omega
    rw [byteAt_take_of_lt _ _ _ h1, byteAt_take_of_lt _ _ _ h2,
      byteAt_drop, byteAt_drop]
    have e1 : 708 + (260 * y + 4 * x) = 708 + 4 * (65 * y + x) := by ring
    have e2 : 708 + (260 * y + 4 * x + 1) = 708 + 4 * (65 * y + x) + 1 := by ring
    rw [e1, e2]
  have hgrid : readRows 65 ((data.drop 708).take 16900) = decodedGrid data := by
    rw [hrows]
    unfold decodedGrid
    refine List.map_congr_left ?_
    intro y hy
    refine List.map_congr_left ?_
    intro x hx
    exact hcell y hy x hx
  show (if _ then some (readRows 65 ((data.drop 708).take 16900)) else none) = _
  rw [hgrid]
  rw [if_pos]
  refine List.all_eq_true.mpr ?_
  intro r hr
  have hrlen : r.length = 65 := by
    unfold decodedGrid at hr
    rw [List.mem_map] at hr
    obtain ⟨y, _, hy⟩ := hr
    rw [← hy]
    simp
  have hhead : ((decodedGrid data).getD 0 []).length = 65 := by
    rw [← hgrid]
    rw [readRows_getD_length 65 _ 0 (by norm_num)]
    omega
  rw [hrlen, hhead]
  rfl

lemma readCells_short (n : ℕ) (buf : List ℕ) (h : buf.length < 2) :
    readCells n buf = ([], buf) := by
  cases n with
  | zero => rfl
  | succ n => simp only [readCells, if_pos h]

lemma readRows_short (n : ℕ) (buf : List ℕ) (h : buf.length < 2) :
    readRows n buf = List.replicate n [] := by
  induction n with
  | zero => rfl
  | succ n ih =>
    simp only [readRows, readCells_short _ _ h, ih]
    rfl

/-- Buffers whose terrain payload is shorter than 2 bytes (total length at most
709) do not fail: every row comes out empty, the rows are homogeneous, and a
degenerate 65×0 grid is returned. -/
lemma load_single_sector_short (data : List ℕ) (h : data.length ≤ 709) :
    load_single_sector data = some (List.replicate 65 []) := by
  have hterr : ((data.drop 708).take 16900).length = min 16900 (data.length - 708) :=
    terrain_length data
  have hlt : ((data.drop 708).take 16900).length < 2 := by omega
  show (if _ then some (readRows 65 ((data.drop 708).take 16900)) else none) = _
  rw [readRows_short 65 _ hlt]
  rw [if_pos]
  refine List.all_eq_true.mpr ?_
  intro r hr
  have : r = [] := List.eq_of_mem_replicate hr
  subst this
  rfl

/-- Buffers whose terrain payload has between 2 and 16897 bytes decode to
ragged rows: the first row is nonempty while row 64 is shorter, `np.array`
raises, and the decoder returns `None`. -/
lemma load_single_sector_ragged (data : List ℕ) (h1 : 710 ≤ data.length)
    (h2 : data.length ≤ 17605) : load_single_sector data = none := by
  have hterr : ((data.drop 708).take 16900).length = min 16900 (data.length - 708) :=
    terrain_length data
  set terrain := (data.drop 708).take 16900 with hterrdef
  have hm : 2 ≤ terrain.length ∧ terrain.length ≤ 16897 := by omega
  set rows := readRows 65 terrain with hrowsdef
  have hlen0 : (rows.getD 0 []).length = min 65 ((terrain.length - 260 * 0 + 2) / 4) :=
    readRows_getD_length 65 terrain 0 (by norm_num)
  have hlen64 : (rows.getD 64 []).length = min 65 ((terrain.length - 260 * 64 + 2) / 4) :=
    readRows_getD_length 65 terrain 64 (by norm_num)
  have hne : (rows.getD 64 []).length ≠ (rows.getD 0 []).length := by
    rw [hlen0, hlen64]
    omega
  have hmem : rows.getD 64 [] ∈ rows := by
    refine getD_mem _ _ _ ?_
    rw [readRows_length]
    norm_num
  show (if rows.all (fun r => r.length == (rows.getD 0 []).length) then some rows else none) = none
  rw [if_neg]
  intro hall
  have := List.all_eq_true.mp hall _ hmem
  exact hne (by simpa using this)

lemma getD_map_range {α : Type} (d : α) (f : ℕ → α) (n y : ℕ) (hy : y < n) :
    ((List.range n).map f).getD y d = f y := by
  have hlen : y < ((List.range n).map f).length := by simpa using hy
  rw [List.getD_eq_getElem _ _ hlen]
  simp

/-- C1: a buffer of at least `708 + 16900` bytes decodes by skipping the
708-byte header and reading, for each of the 65×65 cells in row-major order,
a little-endian 16-bit integer (divided by 128) followed by 2 skipped bytes;
the result is the full 65×65 grid of those values. -/
theorem C1_sector_decoder_correct (data : List ℕ) (hlen : 708 + 16900 ≤ data.length) :
    load_single_sector data = some (decodedGrid data) ∧
      (decodedGrid data).length = 65 ∧
      (∀ r ∈ decodedGrid data, r.length = 65) ∧
      ∀ y < 65, ∀ x < 65, ((decodedGrid data).getD y []).getD x 0 =
        ((byteAt data (708 + 4 * (65 * y + x)) : ℚ) +
          256 * byteAt data (708 + 4 * (65 * y + x) + 1)) / 128 := by
  refine ⟨load_single_sector_complete data (by omega), by simp [decodedGrid], ?_, ?_⟩
  · intro r hr
    unfold decodedGrid at hr
    rw [List.mem_map] at hr
    obtain ⟨y, _, hy⟩ := hr
    rw [← hy]
    simp
  · intro y hy x hx
    unfold decodedGrid
    rw [getD_map_range _ _ _ _ hy, getD_map_range _ _ _ _ hx]

/-- Witness for C1 at a concrete 17608-byte buffer. -/
theorem C1_sector_decoder_correct_witness :
    708 + 16900 ≤ (List.replicate 17608 (0 : ℕ)).length ∧
      load_single_sector (List.replicate 17608 (0 : ℕ)) =
        some (decodedGrid (List.replicate 17608 (0 : ℕ))) :=
  ⟨by rw [List.length_replicate], (C1_sector_decoder_correct _ (by rw [List.length_replicate])).1⟩

lemma readCells_snd_subset (n : ℕ) : ∀ buf : List ℕ, (readCells n buf).2 ⊆ buf := by
  induction n with
  | zero => intro buf; exact List.Subset.refl buf
  | succ n ih =>
    intro buf
    by_cases h : buf.length < 2
    · simp only [readCells, if_pos h]
      exact List.Subset.refl buf
    · simp only [readCells, if_neg h]
      exact (ih _).trans ((List.drop_subset _ _).trans (List.drop_subset _ _))

lemma readCells_mem (n : ℕ) : ∀ (buf : List ℕ) (v : ℚ), v ∈ (readCells n buf).1 →
    ∃ b0 b1 : ℕ, b0 ∈ buf ∧ b1 ∈ buf ∧ v = ((b0 + 256 * b1 : ℕ) : ℚ) / 128 := by
  induction n with
  | zero => intro buf v hv; simp [readCells] at hv
  | succ n ih =>
    intro buf v hv
    by_cases h : buf.length < 2
    · rw [readCells_short _ _ h] at hv
      simp at hv
    · simp only [readCells, if_neg h, List.mem_cons] at hv
      rcases hv with hv | hv
      · refine ⟨byteAt buf 0, byteAt buf 1, ?_, ?_, hv⟩
        · exact getD_mem 0 buf 0 (by omega)
        · exact getD_mem 0 buf 1 (by omega)
      · obtain ⟨b0, b1, hb0, hb1, he⟩ := ih _ v hv
        have hsub : (buf.drop 2).drop 2 ⊆ buf :=
          (List.drop_subset _ _).trans (List.drop_subset _ _)
        exact ⟨b0, b1, hsub hb0, hsub hb1, he⟩

lemma readRows_mem (n : ℕ) : ∀ (buf : List ℕ) (row : List ℚ), row ∈ readRows n buf →
    ∀ v ∈ row, ∃ b0 b1 : ℕ, b0 ∈ buf ∧ b1 ∈ buf ∧ v = ((b0 + 256 * b1 : ℕ) : ℚ) / 128 := by
  induction n with
  | zero => intro buf row hrow; simp [readRows] at hrow
  | succ n ih =>
    intro buf row hrow v hv
    simp only [readRows, List.mem_cons] at hrow
    rcases hrow with hrow | hrow
    · exact readCells_mem 65 buf v (hrow ▸ hv)
    · obtain ⟨b0, b1, hb0, hb1, he⟩ := ih _ row hrow v hv
      have hsub := readCells_snd_subset 65 buf
      exact ⟨b0, b1, hsub hb0, hsub hb1, he⟩

/-- C10: every height in a successfully decoded grid lies in `[0, 65535/128]`
and is an integer multiple of `1/128`. -/
theorem C10_height_range (data : List ℕ) (hbytes : ∀ b ∈ data, b < 256)
    (rows : List (List ℚ)) (hload : load_single_sector data = some rows) :
    ∀ row ∈ rows, ∀ v ∈ row,
      0 ≤ v ∧ v ≤ 65535 / 128 ∧ ∃ k : ℕ, v = (k : ℚ) / 128 := by
  intro row hrow v hv
  have hrows : rows = readRows 65 ((data.drop 708).take 16900) := by
    by_cases hc : (readRows 65 ((data.drop 708).take 16900)).all
        (fun r => r.length == ((readRows 65 ((data.drop 708).take 16900)).getD 0 []).length)
    · have : load_single_sector data = some (readRows 65 ((data.drop 708).take 16900)) := by
        show (if _ then _ else _) = _
        rw [if_pos hc]
      rw [this] at hload
      exact (Option.some_inj.mp hload).symm
    · have : load_single_sector data = none := by
        show (if _ then _ else _) = _
        rw [if_neg hc]
      rw [this] at hload
      exact absurd hload (by simp)
  rw [hrows] at hrow
  obtain ⟨b0, b1, hb0, hb1, he⟩ := readRows_mem 65 _ row hrow v hv
  have hsub : (data.drop 708).take 16900 ⊆ data :=
    (List.take_subset _ _).trans (List.drop_subset _ _)
  have h0 : b0 < 256 := hbytes b0 (hsub hb0)
  have h1 : b1 < 256 := hbytes b1 (hsub hb1)
  have hk : b0 + 256 * b1 ≤ 65535 := by omega
  refine ⟨?_, ?_, ⟨b0 + 256 * b1, by rw [he]⟩⟩
  · rw [he]
    positivity
  · rw [he]
    have : ((b0 + 256 * b1 : ℕ) : ℚ) ≤ 65535 := by
      exact_mod_cast hk
    linarith

/-- Witness for C10 at a concrete fully-decodable buffer. -/
theorem C10_height_range_witness :
    (∀ b ∈ List.replicate 17608 (7 : ℕ), b < 256) ∧
      (∀ row ∈ decodedGrid (List.replicate 17608 (7 : ℕ)), ∀ v ∈ row,
        0 ≤ v ∧ v ≤ 65535 / 128 ∧ ∃ k : ℕ, v = (k : ℚ) / 128) :=
  ⟨fun b hb => by rw [List.eq_of_mem_replicate hb]; norm_num,
    fun row hr v hv => C10_height_range _
      (fun b hb => by rw [List.eq_of_mem_replicate hb]; norm_num) _
      (load_single_sector_complete _ (by rw [List.length_replicate]; norm_num)) row hr v hv⟩

/-- Counterexample to C6 as stated: a buffer of `17606 < 708 + 16900` bytes
decodes successfully (the 2-byte skip after the last cell is never
length-checked), so "fewer than 708 + 4*65*65 bytes" does not imply failure. -/
theorem C6_counterexample :
    (load_single_sector (List.replicate 17606 (0 : ℕ))).isSome = true ∧
      (List.replicate 17606 (0 : ℕ)).length < 708 + 16900 := by
  constructor
  · rw [load_single_sector_complete _ (by rw [List.length_replicate])]
    rfl
  · rw [List.length_replicate]
    norm_num

/-- C6 (amended): the decoder fails exactly when the buffer length lies in
`[710, 17605]` (payload of 2..16897 bytes decodes to ragged rows); buffers of
at most 709 bytes yield a degenerate 65×0 grid and buffers of at least 17606
bytes decode fully.  A failed sector is dropped from the loaded collection
without affecting the other sectors. -/
theorem C6_truncation_isolated :
    (∀ data : List ℕ, load_single_sector data = none ↔
      710 ≤ data.length ∧ data.length ≤ 17605) ∧
    (∀ (fs1 fs2 : List (ℕ × List ℕ)) (i : ℕ) (d : List ℕ),
      load_single_sector d = none →
      load_sectors (fs1 ++ (i, d) :: fs2) = load_sectors fs1 ++ load_sectors fs2) := by
  constructor
  · intro data
    constructor
    · intro hnone
      by_contra hc
      rcases Nat.lt_or_ge data.length 710 with hlt | hge
      · rw [load_single_sector_short data (by omega)] at hnone
        exact absurd hnone (by simp)
      · have h17606 : 17606 ≤ data.length := by omega
        rw [load_single_sector_complete data h17606] at hnone
        exact absurd hnone (by simp)
    · intro ⟨ha, hb⟩
      exact load_single_sector_ragged data ha hb
  · intro fs1 fs2 i d hd
    unfold load_sectors
    rw [List.filterMap_append, List.filterMap_cons]
    rw [hd]
    rfl

/-- Witness for C6 (amended) at concrete inputs: a 1000-byte buffer fails to
decode, and loading a directory containing only that file yields an empty
collection without aborting. -/
theorem C6_truncation_isolated_witness :
    load_single_sector (List.replicate 1000 (0 : ℕ)) = none ∧
      load_sectors [((3 : ℕ), List.replicate 1000 (0 : ℕ))] = [] := by
  have h : load_single_sector (List.replicate 1000 (0 : ℕ)) = none :=
    C6_truncation_isolated.1 _ |>.mpr (by rw [List.length_replicate]; omega)
  exact ⟨h, C6_truncation_isolated.2 [] [] 3 _ h⟩

/-- Exact value semantics of an IEEE-754 binary32 bit pattern, as produced by
`struct.unpack` on 4 little-endian bytes: finite values as exact rationals,
plus infinities and NaN. -/
inductive F32 where
  | finite (q : ℚ)
  | inf (neg : Bool)
  | nan
deriving DecidableEq

/-- Decode a 32-bit pattern as an IEEE-754 binary32 value. -/
def decodeF32 (bits : ℕ) : F32 :=
  let s : ℕ := bits / 2 ^ 31 % 2
  let e : ℕ := bits / 2 ^ 23 % 2 ^ 8
  let m : ℕ := bits % 2 ^ 23
  let sign : ℚ := if s = 1 then -1 else 1
  if e = 255 then (if m = 0 then .inf (s = 1) else .nan)
  else if e = 0 then .finite (sign * (m : ℚ) / ((2 ^ 149 : ℕ) : ℚ))
  else .finite (sign * ((2 ^ e * (2 ^ 23 + m) : ℕ) : ℚ) / ((2 ^ 150 : ℕ) : ℚ))

/-- Python's `value != 0.0` on a float: false exactly for ±0 (NaN compares
unequal to 0, so it counts as non-zero). -/
def f32NeZero : F32 → Bool
  | .finite q => q != 0
  | _ => true

/-- Little-endian 32-bit read at byte offset `i`. -/
def le32 (data : List ℕ) (i : ℕ) : ℕ :=
  byteAt data i + 256 * byteAt data (i + 1) + 65536 * byteAt data (i + 2) +
    16777216 * byteAt data (i + 3)

/-- The fields of the `WaterData` container that the parser fills in. -/
structure WaterData where
  sector_num : ℕ
  material_path : Option (List ℕ)
  has_water : Bool
  water_height : F32
  hex_offset_material : Option ℕ
  hex_offset_height : Option ℕ
deriving DecidableEq

/-- A fresh `WaterData(sector_num)`: no water, height 0.0, no material. -/
def mkWaterData (n : ℕ) : WaterData :=
  ⟨n, none, false, .finite 0, none, none⟩

/-- Whether `pat` occurs in `data` at position `i`. -/
def matchesAt (data pat : List ℕ) (i : ℕ) : Bool :=
  (data.drop i).take pat.length == pat

/-- Python's `bytes.find(pat, start)`: first index `≥ start` where `pat`
occurs, `None` when absent. -/
def pyFind (data pat : List ℕ) (start : ℕ) : Option ℕ :=
  (List.range data.length).find? fun i => decide (start ≤ i) && matchesAt data pat i

/-- First known water-material byte sequence. -/
def waterMaterialSeq1 : List ℕ :=
  "graphics\\_materials\\editor\\water_".toList.map Char.toNat

/-- Second known water-material byte sequence. -/
def waterMaterialSeq2 : List ℕ :=
  "graphics_materials\\editor\\water_".toList.map Char.toNat

/-- `parse_water_from_sector`: read the little-endian binary32 at fixed offset
0xB0 (returning the fresh record when the buffer is too short), set
`has_water` iff the value compares non-zero, and in that case best-effort
search for a known material byte sequence, taking the span up to the next NUL
byte (or 100 bytes when no NUL follows) as the material path. -/
def parse_water_from_sector (data : List ℕ) (sector_num : ℕ) : WaterData :=
  let water := mkWaterData sector_num
  if data.length < 0xB0 + 4 then water
  else
    let wh := decodeF32 (le32 data 0xB0)
    let water := { water with water_height := wh, hex_offset_height := some 0xB0 }
    if f32NeZero wh then
      let water := { water with has_water := true }
      let gpos := match pyFind data waterMaterialSeq1 0 with
        | some p => some p
        | none => pyFind data waterMaterialSeq2 0
      match gpos with
      | none => water
      | some p =>
        match pyFind data [0] p with
        | some e =>
          { water with material_path := some ((data.drop p).take (e - p)),
                       hex_offset_material := some p }
        | none =>
          { water with material_path := some ((data.drop p).take 100),
                       hex_offset_material := some p }
    else water

/-- C2: `has_water` is true iff the binary32 at fixed offset 0xB0 compares
non-zero under exact float inequality, and any buffer shorter than 0xB0+4
bytes yields the fresh record (`has_water = false`, `water_height = 0.0`)
rather than an error. -/
theorem C2_water_flag (data : List ℕ) (n : ℕ) :
    ((parse_water_from_sector data n).has_water = true ↔
      0xB0 + 4 ≤ data.length ∧ f32NeZero (decodeF32 (le32 data 0xB0)) = true) ∧
    (data.length < 0xB0 + 4 → parse_water_from_sector data n = mkWaterData n) := by
  unfold parse_water_from_sector
  by_cases hlen : data.length < 0xB0 + 4
  · rw [if_pos hlen]
    refine ⟨?_, fun _ => rfl⟩
    simp only [mkWaterData]
    constructor
    · intro h
      exact absurd h (by simp)
    · intro ⟨h, _⟩
      omega
  · rw [if_neg hlen]
    refine ⟨?_, fun h => absurd h hlen⟩
    by_cases hz : f32NeZero (decodeF32 (le32 data 0xB0)) = true
    · rw [if_pos hz]
      constructor
      · intro _
        exact ⟨by omega, hz⟩
      · intro _
        cases hfind : (match pyFind data waterMaterialSeq1 0 with
          | some p => some p
          | none => pyFind data waterMaterialSeq2 0) with
        | none => simp [hfind]
        | some p =>
          cases hnul : pyFind data [0] p with
          | none => simp [hfind, hnul]
          | some e => simp [hfind, hnul]
    · rw [if_neg hz]
      constructor
      · intro h
        exact absurd h (by simp [mkWaterData])
      · intro ⟨_, h2⟩
        exact absurd h2 hz
  
/-- A 180-byte buffer whose 4 bytes at offset 0xB0 are `00 00 80 3F`
(little-endian binary32 for 1.0). -/
def exampleWaterBuffer : List ℕ := List.replicate 176 0 ++ [0, 0, 128, 63]

/-- In any buffer long enough for the fixed-offset read, the recorded water
height is the decoded binary32 at offset 0xB0, whatever the material search
does. -/
lemma parse_water_height (data : List ℕ) (n : ℕ) (h : ¬ data.length < 0xB0 + 4) :
    (parse_water_from_sector data n).water_height = decodeF32 (le32 data 0xB0) := by
  unfold parse_water_from_sector
  rw [if_neg h]
  by_cases hz : f32NeZero (decodeF32 (le32 data 0xB0)) = true
  · rw [if_pos hz]
    cases hfind : (match pyFind data waterMaterialSeq1 0 with
      | some p => some p
      | none => pyFind data waterMaterialSeq2 0) with
    | none => simp [hfind]
    | some p =>
      cases hnul : pyFind data [0] p with
      | none => simp [hfind, hnul]
      | some e => simp [hfind, hnul]
  · rw [if_neg hz]

/-- Witness for C2: the example buffer has water of height exactly 1.0. -/
theorem C2_water_flag_witness :
    (0xB0 + 4 ≤ exampleWaterBuffer.length ∧
      f32NeZero (decodeF32 (le32 exampleWaterBuffer 0xB0)) = true) ∧
      (parse_water_from_sector exampleWaterBuffer 5).has_water = true ∧
      (parse_water_from_sector exampleWaterBuffer 5).water_height = F32.finite 1 := by
  have hle : le32 exampleWaterBuffer 0xB0 = 1065353216 := by decide
  have hdec : decodeF32 1065353216 = F32.finite 1 := by
    unfold decodeF32
    norm_num
  have hne : f32NeZero (decodeF32 (le32 exampleWaterBuffer 0xB0)) = true := by
    rw [hle, hdec]
    rfl
  have hlen : 0xB0 + 4 ≤ exampleWaterBuffer.length := by decide
  refine ⟨⟨hlen, hne⟩, (C2_water_flag exampleWaterBuffer 5).1.mpr ⟨hlen, hne⟩, ?_⟩
  rw [parse_water_height _ _ (by omega), hle, hdec]

/-- C9: the material path is only ever set inside the non-zero-water branch:
whenever `has_water` is false the material path is `None`, regardless of the
buffer contents. -/
theorem C9_material_requires_water (data : List ℕ) (n : ℕ)
    (h : (parse_water_from_sector data n).has_water = false) :
    (parse_water_from_sector data n).material_path = none := by
  unfold parse_water_from_sector at h ⊢
  by_cases hlen : data.length < 0xB0 + 4
  · rw [if_pos hlen]
    rfl
  · rw [if_neg hlen] at h ⊢
    by_cases hz : f32NeZero (decodeF32 (le32 data 0xB0)) = true
    · rw [if_pos hz] at h
      exfalso
      revert h
      cases hfind : (match pyFind data waterMaterialSeq1 0 with
        | some p => some p
        | none => pyFind data waterMaterialSeq2 0) with
      | none => simp [hfind]
      | some p =>
        cases hnul : pyFind data [0] p with
        | none => simp [hfind, hnul]
        | some e => simp [hfind, hnul]
    · rw [if_neg hz]
      rfl

/-- A buffer that contains a known water-material byte sequence but has a zero
water-height float at offset 0xB0. -/
def patternedDryBuffer : List ℕ := List.replicate 208 0 ++ waterMaterialSeq1

/-- Witness for C9: the dry buffer contains the material byte sequence, yet
its parse has no water and hence no material path. -/
theorem C9_material_requires_water_witness :
    matchesAt patternedDryBuffer waterMaterialSeq1 208 = true ∧
      (parse_water_from_sector patternedDryBuffer 2).has_water = false ∧
      (parse_water_from_sector patternedDryBuffer 2).material_path = none := by
  have hle : le32 patternedDryBuffer 0xB0 = 0 := by decide
  have hdec : decodeF32 0 = F32.finite 0 := by
    unfold decodeF32
    norm_num
  have hzb : f32NeZero (F32.finite 0) = false := by
    show ((0 : ℚ) != 0) = false
    simp
  have hw : (parse_water_from_sector patternedDryBuffer 2).has_water = false := by
    unfold parse_water_from_sector
    rw [if_neg (by decide)]
    rw [hle, hdec]
    rw [if_neg (by rw [hzb]; simp)]
    rfl
  exact ⟨by decide, hw, C9_material_requires_water _ 2 hw⟩

/-- `get_sector_index_from_position`: map a display cell `(display_row, col)`
of a `sectors_x × sectors_y` output grid to the sector index to show there,
according to the selected ordering pattern (the trailing `else` falls back to
bottom-left sequential). -/
def get_sector_index_from_position (pattern : String)
    (display_row col sectors_x sectors_y : ℕ) : ℕ :=
  if pattern = "Avatar Game Layout (2x2 blocks, vertical)" then
    let block_col := col / 2
    let block_row := display_row / 2
    let within_block_col := col % 2
    let within_block_row := display_row % 2
    let blocks_per_column := sectors_y / 2
    let atlas_block_index := block_col * blocks_per_column + block_row
    let base_sector := atlas_block_index * 4
    let offset :=
      if within_block_row = 0 ∧ within_block_col = 0 then 0
      else if within_block_row = 0 ∧ within_block_col = 1 then 2
      else if within_block_row = 1 ∧ within_block_col = 0 then 1
      else 3
    base_sector + offset
  else if pattern = "Avatar Game Layout - Horizontal" then
    let block_col := col / 2
    let block_row := display_row / 2
    let within_block_col := col % 2
    let within_block_row := display_row % 2
    let blocks_per_row := sectors_x / 2
    let atlas_block_index := block_row * blocks_per_row + block_col
    let base_sector := atlas_block_index * 4
    let offset :=
      if within_block_row = 0 ∧ within_block_col = 0 then 0
      else if within_block_row = 0 ∧ within_block_col = 1 then 2
      else if within_block_row = 1 ∧ within_block_col = 0 then 1
      else 3
    base_sector + offset
  else if pattern = "Avatar Game Layout - No Swap" then
    let block_col := col / 2
    let block_row := display_row / 2
    let within_block_col := col % 2
    let within_block_row := display_row % 2
    let blocks_per_column := sectors_y / 2
    let atlas_block_index := block_col * blocks_per_column + block_row
    let base_sector := atlas_block_index * 4
    let offset :=
      if within_block_row = 0 ∧ within_block_col = 0 then 0
      else if within_block_row = 0 ∧ within_block_col = 1 then 1
      else if within_block_row = 1 ∧ within_block_col = 0 then 2
      else 3
    base_sector + offset
  else if pattern = "Avatar Game Layout - Swap 0↔3" then
    let block_col := col / 2
    let block_row := display_row / 2
    let within_block_col := col % 2
    let within_block_row := display_row % 2
    let blocks_per_column := sectors_y / 2
    let atlas_block_index := block_col * blocks_per_column + block_row
    let base_sector := atlas_block_index * 4
    let offset :=
      if within_block_row = 0 ∧ within_block_col = 0 then 3
      else if within_block_row = 0 ∧ within_block_col = 1 then 1
      else if within_block_row = 1 ∧ within_block_col = 0 then 2
      else 0
    base_sector + offset
  else if pattern = "Bottom-Left Sequential" then
    (sectors_y - 1 - display_row) * sectors_x + col
  else if pattern = "Top-Left Sequential" then
    display_row * sectors_x + col
  else if pattern = "Bottom-Right Sequential" then
    (sectors_y - 1 - display_row) * sectors_x + (sectors_x - 1 - col)
  else if pattern = "Top-Right Sequential" then
    display_row * sectors_x + (sectors_x - 1 - col)
  else if pattern = "Bottom-Left by Column" then
    col * sectors_y + (sectors_y - 1 - display_row)
  else if pattern = "Top-Left by Column" then
    col * sectors_y + display_row
  else
    (sectors_y - 1 - display_row) * sectors_x + col

/-- The four 2×2-block ("Avatar") layout patterns. -/
def blockPatterns : List String :=
  ["Avatar Game Layout (2x2 blocks, vertical)",
   "Avatar Game Layout - Horizontal",
   "Avatar Game Layout - No Swap",
   "Avatar Game Layout - Swap 0↔3"]

/-- The resolver restricted to the display grid is a bijection onto
`[0, sectors_x * sectors_y)`: no two display cells map to the same index, and
the image of the grid is exactly the index range (so every index in the range
is produced exactly once). -/
def orderingBijective (pattern : String) (sectors_x sectors_y : ℕ) : Prop :=
  (∀ p ∈ Finset.range sectors_y ×ˢ Finset.range sectors_x,
    ∀ q ∈ Finset.range sectors_y ×ˢ Finset.range sectors_x,
      get_sector_index_from_position pattern p.1 p.2 sectors_x sectors_y
        = get_sector_index_from_position pattern q.1 q.2 sectors_x sectors_y → p = q) ∧
  ((Finset.range sectors_y ×ˢ Finset.range sectors_x).image fun p =>
      get_sector_index_from_position pattern p.1 p.2 sectors_x sectors_y)
    = Finset.range (sectors_x * sectors_y)

lemma image_eq_range_of (f : ℕ × ℕ → ℕ) (sx sy : ℕ)
    (hmem : ∀ r c, r < sy → c < sx → f (r, c) < sx * sy)
    (hsurj : ∀ k, k < sx * sy → ∃ r c, r < sy ∧ c < sx ∧ f (r, c) = k) :
    (Finset.range sy ×ˢ Finset.range sx).image f = Finset.range (sx * sy) := by
  ext k
  simp only [Finset.mem_image, Finset.mem_product, Finset.mem_range]
  constructor
  · rintro ⟨⟨r, c⟩, ⟨hr, hc⟩, hf⟩
    exact hf ▸ hmem r c hr hc
  · intro hk
    obtain ⟨r, c, hr, hc, hf⟩ := hsurj k hk
    exact ⟨(r, c), ⟨hr, hc⟩, hf⟩

lemma rowmajor_lt {r c sx sy : ℕ} (hr : r < sy) (hc : c < sx) : r * sx + c < sx * sy := by
  calc r * sx + c < r * sx + sx := by omega
    _ = (r + 1) * sx := by ring
    _ ≤ sy * sx := Nat.mul_le_mul_right sx hr
    _ = sx * sy := Nat.mul_comm sy sx

lemma div_mul_add_mod (k sx : ℕ) : k / sx * sx + k % sx = k := by
  rw [Nat.mul_comm]
  exact Nat.div_add_mod k sx

lemma euclid_pair (k m : ℕ) (hm : 1 ≤ m) (n : ℕ) (hk : k < m * n) :
    ∃ q r, q < n ∧ r < m ∧ q * m + r = k := by
  refine ⟨k / m, k % m, ?_, Nat.mod_lt _ (by omega), div_mul_add_mod k m⟩
  rw [Nat.div_lt_iff_lt_mul (by omega)]
  have hcomm : m * n = n * m := Nat.mul_comm m n
  omega

lemma image_BL (sx sy : ℕ) (hsx : 1 ≤ sx) (hsy : 1 ≤ sy) :
    ((Finset.range sy ×ˢ Finset.range sx).image fun p : ℕ × ℕ =>
      (sy - 1 - p.1) * sx + p.2) = Finset.range (sx * sy) := by
  refine image_eq_range_of _ _ _ ?_ ?_
  · intro r c hr hc
    exact rowmajor_lt (by omega) hc
  · intro k hk
    obtain ⟨q, r', hq, hr', hkeq⟩ := euclid_pair k sx hsx sy hk
    refine ⟨sy - 1 - q, r', by omega, hr', ?_⟩
    have he : sy - 1 - (sy - 1 - q) = q := by omega
    rw [he, hkeq]

lemma image_TL (sx sy : ℕ) (hsx : 1 ≤ sx) (hsy : 1 ≤ sy) :
    ((Finset.range sy ×ˢ Finset.range sx).image fun p : ℕ × ℕ =>
      p.1 * sx + p.2) = Finset.range (sx * sy) := by
  refine image_eq_range_of _ _ _ ?_ ?_
  · intro r c hr hc
    exact rowmajor_lt hr hc
  · intro k hk
    obtain ⟨q, r', hq, hr', hkeq⟩ := euclid_pair k sx hsx sy hk
    exact ⟨q, r', hq, hr', hkeq⟩

lemma image_BR (sx sy : ℕ) (hsx : 1 ≤ sx) (hsy : 1 ≤ sy) :
    ((Finset.range sy ×ˢ Finset.range sx).image fun p : ℕ × ℕ =>
      (sy - 1 - p.1) * sx + (sx - 1 - p.2)) = Finset.range (sx * sy) := by
  refine image_eq_range_of _ _ _ ?_ ?_
  · intro r c hr hc
    exact rowmajor_lt (by omega) (by omega)
  · intro k hk
    obtain ⟨q, r', hq, hr', hkeq⟩ := euclid_pair k sx hsx sy hk
    refine ⟨sy - 1 - q, sx - 1 - r', by omega, by omega, ?_⟩
    have he1 : sy - 1 - (sy - 1 - q) = q := by omega
    have he2 : sx - 1 - (sx - 1 - r') = r' := by omega
    rw [he1, he2, hkeq]

lemma image_TR (sx sy : ℕ) (hsx : 1 ≤ sx) (hsy : 1 ≤ sy) :
    ((Finset.range sy ×ˢ Finset.range sx).image fun p : ℕ × ℕ =>
      p.1 * sx + (sx - 1 - p.2)) = Finset.range (sx * sy) := by
  refine image_eq_range_of _ _ _ ?_ ?_
  · intro r c hr hc
    exact rowmajor_lt hr (by omega)
  · intro k hk
    obtain ⟨q, r', hq, hr', hkeq⟩ := euclid_pair k sx hsx sy hk
    refine ⟨q, sx - 1 - r', hq, by omega, ?_⟩
    have he2 : sx - 1 - (sx - 1 - r') = r' := by omega
    rw [he2, hkeq]

lemma image_BLcol (sx sy : ℕ) (hsx : 1 ≤ sx) (hsy : 1 ≤ sy) :
    ((Finset.range sy ×ˢ Finset.range sx).image fun p : ℕ × ℕ =>
      p.2 * sy + (sy - 1 - p.1)) = Finset.range (sx * sy) := by
  refine image_eq_range_of _ _ _ ?_ ?_
  · intro r c hr hc
    show c * sy + (sy - 1 - r) < sx * sy
    have h1 := @rowmajor_lt c (sy - 1 - r) sy sx hc (show sy - 1 - r < sy by omega)
    have hcomm : sy * sx = sx * sy := Nat.mul_comm sy sx
    omega
  · intro k hk
    obtain ⟨q, r', hq, hr', hkeq⟩ := euclid_pair k sy hsy sx (by rw [Nat.mul_comm]; exact hk)
    refine ⟨sy - 1 - r', q, by omega, hq, ?_⟩
    have he : sy - 1 - (sy - 1 - r') = r' := by omega
    rw [he, hkeq]

lemma image_TLcol (sx sy : ℕ) (hsx : 1 ≤ sx) (hsy : 1 ≤ sy) :
    ((Finset.range sy ×ˢ Finset.range sx).image fun p : ℕ × ℕ =>
      p.2 * sy + p.1) = Finset.range (sx * sy) := by
  refine image_eq_range_of _ _ _ ?_ ?_
  · intro r c hr hc
    show c * sy + r < sx * sy
    have h1 := @rowmajor_lt c r sy sx hc hr
    have hcomm : sy * sx = sx * sy := Nat.mul_comm sy sx
    omega
  · intro k hk
    obtain ⟨q, r', hq, hr', hkeq⟩ := euclid_pair k sy hsy sx (by rw [Nat.mul_comm]; exact hk)
    exact ⟨r', q, hr', hq, hkeq⟩

/-- Within-block offsets with the Avatar swap of slots 1 and 2. -/
def offSwap12 (r2 c2 : ℕ) : ℕ :=
  if r2 = 0 ∧ c2 = 0 then 0
  else if r2 = 0 ∧ c2 = 1 then 2
  else if r2 = 1 ∧ c2 = 0 then 1
  else 3

/-- Within-block offsets in standard order (no swap). -/
def offPlain (r2 c2 : ℕ) : ℕ :=
  if r2 = 0 ∧ c2 = 0 then 0
  else if r2 = 0 ∧ c2 = 1 then 1
  else if r2 = 1 ∧ c2 = 0 then 2
  else 3

/-- Within-block offsets with slots 0 and 3 swapped. -/
def offSwap03 (r2 c2 : ℕ) : ℕ :=
  if r2 = 0 ∧ c2 = 0 then 3
  else if r2 = 0 ∧ c2 = 1 then 1
  else if r2 = 1 ∧ c2 = 0 then 2
  else 0

def invSwap12 (m : ℕ) : ℕ × ℕ :=
  if m = 0 then (0, 0) else if m = 1 then (1, 0) else if m = 2 then (0, 1) else (1, 1)

def invPlain (m : ℕ) : ℕ × ℕ :=
  if m = 0 then (0, 0) else if m = 1 then (0, 1) else if m = 2 then (1, 0) else (1, 1)

def invSwap03 (m : ℕ) : ℕ × ℕ :=
  if m = 0 then (1, 1) else if m = 1 then (0, 1) else if m = 2 then (1, 0) else (0, 0)

lemma block_image_core (o : ℕ → ℕ → ℕ) (inv : ℕ → ℕ × ℕ)
    (hinv : ∀ m, m < 4 → (inv m).1 < 2 ∧ (inv m).2 < 2 ∧ o (inv m).1 (inv m).2 = m)
    (hbound : ∀ r2 c2, r2 < 2 → c2 < 2 → o r2 c2 < 4)
    (a b : ℕ) (ha : 1 ≤ a) (hb : 1 ≤ b)
    (g : ℕ × ℕ → ℕ)
    (hg : ∀ r c, g (r, c) = (c / 2 * b + r / 2) * 4 + o (r % 2) (c % 2)) :
    (Finset.range (2 * b) ×ˢ Finset.range (2 * a)).image g
      = Finset.range (2 * a * (2 * b)) := by
  refine image_eq_range_of _ _ _ ?_ ?_
  · intro r c hr hc
    rw [hg]
    have h1 : c / 2 < a := by omega
    have h2 : r / 2 < b := by omega
    have hblk : c / 2 * b + r / 2 < a * b := by
      calc c / 2 * b + r / 2 < c / 2 * b + b := by omega
        _ = (c / 2 + 1) * b := by ring
        _ ≤ a * b := Nat.mul_le_mul_right b h1
    have hoff : o (r % 2) (c % 2) < 4 := hbound _ _ (by omega) (by omega)
    have hmul : (c / 2 * b + r / 2 + 1) * 4 ≤ a * b * 4 := Nat.mul_le_mul_right 4 hblk
    have hfin : a * b * 4 = 2 * a * (2 * b) := by ring
    omega
  · intro k hk
    have hblk : k / 4 < a * b := by
      have h4 : 2 * a * (2 * b) = a * b * 4 := by ring
      omega
    obtain ⟨q, rb, hq, hrb, hqr⟩ :=
      euclid_pair (k / 4) b hb a (by rw [Nat.mul_comm]; exact hblk)
    obtain ⟨hi1, hi2, hio⟩ := hinv (k % 4) (Nat.mod_lt _ (by omega))
    refine ⟨2 * rb + (inv (k % 4)).1, 2 * q + (inv (k % 4)).2, by omega, by omega, ?_⟩
    rw [hg]
    have ed1 : (2 * q + (inv (k % 4)).2) / 2 = q := by omega
    have ed2 : (2 * rb + (inv (k % 4)).1) / 2 = rb := by omega
    have em1 : (2 * rb + (inv (k % 4)).1) % 2 = (inv (k % 4)).1 := by omega
    have em2 : (2 * q + (inv (k % 4)).2) % 2 = (inv (k % 4)).2 := by omega
    rw [ed1, ed2, em1, em2, hio, hqr]
    omega

lemma block_image_core_horiz (o : ℕ → ℕ → ℕ) (inv : ℕ → ℕ × ℕ)
    (hinv : ∀ m, m < 4 → (inv m).1 < 2 ∧ (inv m).2 < 2 ∧ o (inv m).1 (inv m).2 = m)
    (hbound : ∀ r2 c2, r2 < 2 → c2 < 2 → o r2 c2 < 4)
    (a b : ℕ) (ha : 1 ≤ a) (hb : 1 ≤ b)
    (g : ℕ × ℕ → ℕ)
    (hg : ∀ r c, g (r, c) = (r / 2 * a + c / 2) * 4 + o (r % 2) (c % 2)) :
    (Finset.range (2 * b) ×ˢ Finset.range (2 * a)).image g
      = Finset.range (2 * a * (2 * b)) := by
  refine image_eq_range_of _ _ _ ?_ ?_
  · intro r c hr hc
    rw [hg]
    have h1 : c / 2 < a := by omega
    have h2 : r / 2 < b := by omega
    have hblk : r / 2 * a + c / 2 < b * a := by
      calc r / 2 * a + c / 2 < r / 2 * a + a := by omega
        _ = (r / 2 + 1) * a := by ring
        _ ≤ b * a := Nat.mul_le_mul_right a h2
    have hoff : o (r % 2) (c % 2) < 4 := hbound _ _ (by omega) (by omega)
    have hmul : (r / 2 * a + c / 2 + 1) * 4 ≤ b * a * 4 := Nat.mul_le_mul_right 4 hblk
    have hfin : b * a * 4 = 2 * a * (2 * b) := by ring
    omega
  · intro k hk
    have hblk : k / 4 < b * a := by
      have h4 : 2 * a * (2 * b) = b * a * 4 := by ring
      omega
    obtain ⟨q, rb, hq, hrb, hqr⟩ :=
      euclid_pair (k / 4) a ha b (by rw [Nat.mul_comm]; exact hblk)
    obtain ⟨hi1, hi2, hio⟩ := hinv (k % 4) (Nat.mod_lt _ (by omega))
    refine ⟨2 * q + (inv (k % 4)).1, 2 * rb + (inv (k % 4)).2, by omega, by omega, ?_⟩
    rw [hg]
    have ed1 : (2 * q + (inv (k % 4)).1) / 2 = q := by omega
    have ed2 : (2 * rb + (inv (k % 4)).2) / 2 = rb := by omega
    have em1 : (2 * q + (inv (k % 4)).1) % 2 = (inv (k % 4)).1 := by omega
    have em2 : (2 * rb + (inv (k % 4)).2) % 2 = (inv (k % 4)).2 := by omega
    rw [ed1, ed2, em1, em2, hio, hqr]
    omega

lemma resolver_avatarV (dr c sx sy : ℕ) :
    get_sector_index_from_position "Avatar Game Layout (2x2 blocks, vertical)" dr c sx sy
      = (c / 2 * (sy / 2) + dr / 2) * 4 + offSwap12 (dr % 2) (c % 2) := by
  unfold get_sector_index_from_position offSwap12
  rw [if_pos rfl]

lemma resolver_avatarH (dr c sx sy : ℕ) :
    get_sector_index_from_position "Avatar Game Layout - Horizontal" dr c sx sy
      = (dr / 2 * (sx / 2) + c / 2) * 4 + offSwap12 (dr % 2) (c % 2) := by
  unfold get_sector_index_from_position offSwap12
  rw [if_neg (by decide), if_pos rfl]

lemma resolver_noSwap (dr c sx sy : ℕ) :
    get_sector_index_from_position "Avatar Game Layout - No Swap" dr c sx sy
      = (c / 2 * (sy / 2) + dr / 2) * 4 + offPlain (dr % 2) (c % 2) := by
  unfold get_sector_index_from_position offPlain
  rw [if_neg (by decide), if_neg (by decide), if_pos rfl]

lemma resolver_swap03 (dr c sx sy : ℕ) :
    get_sector_index_from_position "Avatar Game Layout - Swap 0↔3" dr c sx sy
      = (c / 2 * (sy / 2) + dr / 2) * 4 + offSwap03 (dr % 2) (c % 2) := by
  unfold get_sector_index_from_position offSwap03
  rw [if_neg (by decide), if_neg (by decide), if_neg (by decide), if_pos rfl]

lemma resolver_BL (dr c sx sy : ℕ) :
    get_sector_index_from_position "Bottom-Left Sequential" dr c sx sy
      = (sy - 1 - dr) * sx + c := by
  unfold get_sector_index_from_position
  rw [if_neg (by decide), if_neg (by decide), if_neg (by decide), if_neg (by decide),
    if_pos rfl]

lemma resolver_TL (dr c sx sy : ℕ) :
    get_sector_index_from_position "Top-Left Sequential" dr c sx sy
      = dr * sx + c := by
  unfold get_sector_index_from_position
  rw [if_neg (by decide), if_neg (by decide), if_neg (by decide), if_neg (by decide),
    if_neg (by decide), if_pos rfl]

lemma resolver_BR (dr c sx sy : ℕ) :
    get_sector_index_from_position "Bottom-Right Sequential" dr c sx sy
      = (sy - 1 - dr) * sx + (sx - 1 - c) := by
  unfold get_sector_index_from_position
  rw [if_neg (by decide), if_neg (by decide), if_neg (by decide), if_neg (by decide),
    if_neg (by decide), if_neg (by decide), if_pos rfl]

lemma resolver_TR (dr c sx sy : ℕ) :
    get_sector_index_from_position "Top-Right Sequential" dr c sx sy
      = dr * sx + (sx - 1 - c) := by
  unfold get_sector_index_from_position
  rw [if_neg (by decide), if_neg (by decide), if_neg (by decide), if_neg (by decide),
    if_neg (by decide), if_neg (by decide), if_neg (by decide), if_pos rfl]

lemma resolver_BLcol (dr c sx sy : ℕ) :
    get_sector_index_from_position "Bottom-Left by Column" dr c sx sy
      = c * sy + (sy - 1 - dr) := by
  unfold get_sector_index_from_position
  rw [if_neg (by decide), if_neg (by decide), if_neg (by decide), if_neg (by decide),
    if_neg (by decide), if_neg (by decide), if_neg (by decide), if_neg (by decide),
    if_pos rfl]

lemma resolver_TLcol (dr c sx sy : ℕ) :
    get_sector_index_from_position "Top-Left by Column" dr c sx sy
      = c * sy + dr := by
  unfold get_sector_index_from_position
  rw [if_neg (by decide), if_neg (by decide), if_neg (by decide), if_neg (by decide),
    if_neg (by decide), if_neg (by decide), if_neg (by decide), if_neg (by decide),
    if_neg (by decide), if_pos rfl]

lemma resolver_default (pattern : String) (dr c sx sy : ℕ)
    (h1 : pattern ≠ "Avatar Game Layout (2x2 blocks, vertical)")
    (h2 : pattern ≠ "Avatar Game Layout - Horizontal")
    (h3 : pattern ≠ "Avatar Game Layout - No Swap")
    (h4 : pattern ≠ "Avatar Game Layout - Swap 0↔3")
    (h5 : pattern ≠ "Bottom-Left Sequential")
    (h6 : pattern ≠ "Top-Left Sequential")
    (h7 : pattern ≠ "Bottom-Right Sequential")
    (h8 : pattern ≠ "Top-Right Sequential")
    (h9 : pattern ≠ "Bottom-Left by Column")
    (h10 : pattern ≠ "Top-Left by Column") :
    get_sector_index_from_position pattern dr c sx sy = (sy - 1 - dr) * sx + c := by
  unfold get_sector_index_from_position
  rw [if_neg h1, if_neg h2, if_neg h3, if_neg h4, if_neg h5, if_neg h6, if_neg h7,
    if_neg h8, if_neg h9, if_neg h10]

/-- Counterexample to C3 as stated: on a 2×1 grid the vertical Avatar block
layout maps the two display cells to sectors 0 and 2, so the image is not
`[0, 2)` and the map is not a bijection onto that range. -/
theorem C3_counterexample :
    ¬ orderingBijective "Avatar Game Layout (2x2 blocks, vertical)" 2 1 := by
  intro h
  have h1 := h.2
  rw [Finset.ext_iff] at h1
  have h2 := (h1 2).mp
  simp only [Finset.mem_image, Finset.mem_product, Finset.mem_range] at h2
  have h3 : ∃ p : ℕ × ℕ, (p.1 < 1 ∧ p.2 < 2) ∧
      get_sector_index_from_position "Avatar Game Layout (2x2 blocks, vertical)"
        p.1 p.2 2 1 = 2 := by
    refine ⟨(0, 1), ⟨by omega, by omega⟩, ?_⟩
    rw [resolver_avatarV]
    rfl
  obtain ⟨p, hp, hf⟩ := h3
  have := h2 ⟨p, hp, hf⟩
  omega

/-- C3 (amended): the resolver restricted to the display grid is a bijection
onto `[0, sectors_x*sectors_y)` for every named ordering policy (and the
default fallback) on every grid with `sectors_x, sectors_y ≥ 1`, provided that
for the four 2×2-block Avatar layouts both grid dimensions are even.  Some
restriction on the block layouts is forced: the claim's unrestricted form
fails on the counterexample's 2×1 grid, whose cells map to {0, 2}. -/
theorem C3_amended_ordering_bijective (pattern : String) (sx sy : ℕ)
    (hsx : 1 ≤ sx) (hsy : 1 ≤ sy)
    (hblock : pattern ∈ blockPatterns → 2 ∣ sx ∧ 2 ∣ sy) :
    orderingBijective pattern sx sy := by
  have key : ((Finset.range sy ×ˢ Finset.range sx).image fun p : ℕ × ℕ =>
      get_sector_index_from_position pattern p.1 p.2 sx sy)
      = Finset.range (sx * sy) := by
    by_cases h1 : pattern = "Avatar Game Layout (2x2 blocks, vertical)"
    · subst h1
      obtain ⟨⟨a, rfl⟩, ⟨b, rfl⟩⟩ := hblock (by simp [blockPatterns])
      refine block_image_core offSwap12 invSwap12 ?_ ?_ a b (by omega) (by omega) _ ?_
      · intro m hm
        interval_cases m <;> exact ⟨by norm_num [invSwap12], by norm_num [invSwap12],
          by norm_num [invSwap12, offSwap12]⟩
      · intro r2 c2 hr2 hc2
        interval_cases r2 <;> interval_cases c2 <;> norm_num [offSwap12]
      · intro r c
        show get_sector_index_from_position _ r c (2 * a) (2 * b) = _
        rw [resolver_avatarV]
        have hdiv : 2 * b / 2 = b := by omega
        rw [hdiv]
    · by_cases h2 : pattern = "Avatar Game Layout - Horizontal"
      · subst h2
        obtain ⟨⟨a, rfl⟩, ⟨b, rfl⟩⟩ := hblock (by simp [blockPatterns])
        refine block_image_core_horiz offSwap12 invSwap12 ?_ ?_ a b (by omega) (by omega) _ ?_
        · intro m hm
          interval_cases m <;> exact ⟨by norm_num [invSwap12], by norm_num [invSwap12],
            by norm_num [invSwap12, offSwap12]⟩
        · intro r2 c2 hr2 hc2
          interval_cases r2 <;> interval_cases c2 <;> norm_num [offSwap12]
        · intro r c
          show get_sector_index_from_position _ r c (2 * a) (2 * b) = _
          rw [resolver_avatarH]
          have hdiv : 2 * a / 2 = a := by omega
          rw [hdiv]
      · by_cases h3 : pattern = "Avatar Game Layout - No Swap"
        · subst h3
          obtain ⟨⟨a, rfl⟩, ⟨b, rfl⟩⟩ := hblock (by simp [blockPatterns])
          refine block_image_core offPlain invPlain ?_ ?_ a b (by omega) (by omega) _ ?_
          · intro m hm
            interval_cases m <;> exact ⟨by norm_num [invPlain], by norm_num [invPlain],
              by norm_num [invPlain, offPlain]⟩
          · intro r2 c2 hr2 hc2
            interval_cases r2 <;> interval_cases c2 <;> norm_num [offPlain]
          · intro r c
            show get_sector_index_from_position _ r c (2 * a) (2 * b) = _
            rw [resolver_noSwap]
            have hdiv : 2 * b / 2 = b := by omega
            rw [hdiv]
        · by_cases h4 : pattern = "Avatar Game Layout - Swap 0↔3"
          · subst h4
            obtain ⟨⟨a, rfl⟩, ⟨b, rfl⟩⟩ := hblock (by simp [blockPatterns])
            refine block_image_core offSwap03 invSwap03 ?_ ?_ a b (by omega) (by omega) _ ?_
            · intro m hm
              interval_cases m <;> exact ⟨by norm_num [invSwap03], by norm_num [invSwap03],
                by norm_num [invSwap03, offSwap03]⟩
            · intro r2 c2 hr2 hc2
              interval_cases r2 <;> interval_cases c2 <;> norm_num [offSwap03]
            · intro r c
              show get_sector_index_from_position _ r c (2 * a) (2 * b) = _
              rw [resolver_swap03]
              have hdiv : 2 * b / 2 = b := by omega
              rw [hdiv]
          · by_cases h5 : pattern = "Bottom-Left Sequential"
            · subst h5
              have hfun : (fun p : ℕ × ℕ =>
                  get_sector_index_from_position "Bottom-Left Sequential" p.1 p.2 sx sy)
                  = fun p : ℕ × ℕ => (sy - 1 - p.1) * sx + p.2 :=
                funext fun p => resolver_BL p.1 p.2 sx sy
              rw [hfun]
              exact image_BL sx sy hsx hsy
            · by_cases h6 : pattern = "Top-Left Sequential"
              · subst h6
                have hfun : (fun p : ℕ × ℕ =>
                    get_sector_index_from_position "Top-Left Sequential" p.1 p.2 sx sy)
                    = fun p : ℕ × ℕ => p.1 * sx + p.2 :=
                  funext fun p => resolver_TL p.1 p.2 sx sy
                rw [hfun]
                exact image_TL sx sy hsx hsy
              · by_cases h7 : pattern = "Bottom-Right Sequential"
                · subst h7
                  have hfun : (fun p : ℕ × ℕ =>
                      get_sector_index_from_position "Bottom-Right Sequential" p.1 p.2 sx sy)
                      = fun p : ℕ × ℕ => (sy - 1 - p.1) * sx + (sx - 1 - p.2) :=
                    funext fun p => resolver_BR p.1 p.2 sx sy
                  rw [hfun]
                  exact image_BR sx sy hsx hsy
                · by_cases h8 : pattern = "Top-Right Sequential"
                  · subst h8
                    have hfun : (fun p : ℕ × ℕ =>
                        get_sector_index_from_position "Top-Right Sequential" p.1 p.2 sx sy)
                        = fun p : ℕ × ℕ => p.1 * sx + (sx - 1 - p.2) :=
                      funext fun p => resolver_TR p.1 p.2 sx sy
                    rw [hfun]
                    exact image_TR sx sy hsx hsy
                  · by_cases h9 : pattern = "Bottom-Left by Column"
                    · subst h9
                      have hfun : (fun p : ℕ × ℕ =>
                          get_sector_index_from_position "Bottom-Left by Column" p.1 p.2 sx sy)
                          = fun p : ℕ × ℕ => p.2 * sy + (sy - 1 - p.1) :=
                        funext fun p => resolver_BLcol p.1 p.2 sx sy
                      rw [hfun]
                      exact image_BLcol sx sy hsx hsy
                    · by_cases h10 : pattern = "Top-Left by Column"
                      · subst h10
                        have hfun : (fun p : ℕ × ℕ =>
                            get_sector_index_from_position "Top-Left by Column" p.1 p.2 sx sy)
                            = fun p : ℕ × ℕ => p.2 * sy + p.1 :=
                          funext fun p => resolver_TLcol p.1 p.2 sx sy
                        rw [hfun]
                        exact image_TLcol sx sy hsx hsy
                      · have hfun : (fun p : ℕ × ℕ =>
                            get_sector_index_from_position pattern p.1 p.2 sx sy)
                            = fun p : ℕ × ℕ => (sy - 1 - p.1) * sx + p.2 :=
                          funext fun p =>
                            resolver_default pattern p.1 p.2 sx sy h1 h2 h3 h4 h5 h6 h7 h8 h9 h10
                        rw [hfun]
                        exact image_BL sx sy hsx hsy
  have hcard : ((Finset.range sy ×ˢ Finset.range sx).image fun p : ℕ × ℕ =>
      get_sector_index_from_position pattern p.1 p.2 sx sy).card
      = (Finset.range sy ×ˢ Finset.range sx).card := by
    rw [key, Finset.card_range, Finset.card_product, Finset.card_range, Finset.card_range]
    ring
  have hinj := Finset.injOn_of_card_image_eq hcard
  refine ⟨?_, key⟩
  intro p hp q hq hfeq
  exact hinj (Finset.mem_coe.mpr hp) (Finset.mem_coe.mpr hq) hfeq

/-- Witness for C3 (amended) at a sequential policy on a 3×2 grid and a block
policy on a 4×2 grid. -/
theorem C3_amended_ordering_bijective_witness :
    orderingBijective "Top-Left Sequential" 3 2 ∧
      orderingBijective "Avatar Game Layout (2x2 blocks, vertical)" 4 2 :=
  ⟨C3_amended_ordering_bijective _ 3 2 (by norm_num) (by norm_num)
      (by intro hmem; exact absurd hmem (by decide)),
    C3_amended_ordering_bijective _ 4 2 (by norm_num) (by norm_num)
      (fun _ => ⟨⟨2, rfl⟩, ⟨1, rfl⟩⟩)⟩

/-- A sector's height data as a 65×65 grid of rationals, cell `(row, col)`. -/
abbrev HeightFn := ℕ → ℕ → ℚ

/-- The loaded sector dictionary: association list from sector index to grid. -/
abbrev HColl := List (ℕ × HeightFn)

/-- The per-edge blend ramp selected by blend mode: linear `t`, smoothstep
(`Smooth Feather`), smootherstep (`Gaussian`), anything else falling back to
linear, at `t = edge_pixel / overlap`. -/
def rampWeight (mode : String) (e overlap : ℕ) : ℚ :=
  if mode = "Linear" then (e : ℚ) / overlap
  else if mode = "Smooth Feather" then
    ((e : ℚ) / overlap) * ((e : ℚ) / overlap) * (3 - 2 * ((e : ℚ) / overlap))
  else if mode = "Gaussian" then
    ((e : ℚ) / overlap) * ((e : ℚ) / overlap) * ((e : ℚ) / overlap) *
      (((e : ℚ) / overlap) * (((e : ℚ) / overlap) * 6 - 15) + 10)
  else (e : ℚ) / overlap

/-- One pass of the feathering loop: multiply weight `w` into column `e`,
column `64 - e` (Python index `-(e+1)` of a 65-wide mask), row `e` and row
`64 - e` of the mask. -/
def applyEdgeWeight (m : ℕ → ℕ → ℚ) (e : ℕ) (w : ℚ) : ℕ → ℕ → ℚ :=
  fun r c =>
    m r c * (if c = e then w else 1) * (if c = 64 - e then w else 1) *
      (if r = e then w else 1) * (if r = 64 - e then w else 1)

/-- The 65×65 per-sector weight mask: all ones, feathered by
`applyEdgeWeight` for each `edge_pixel` in `range overlap`. -/
def sectorWeight (overlap : ℕ) (mode : String) : ℕ → ℕ → ℚ :=
  (List.range overlap).foldl
    (fun m e => applyEdgeWeight m e (rampWeight mode e overlap)) (fun _ _ => 1)

/-- The division guard `np.maximum(weights, 1e-10)` uses. -/
def seamEps : ℚ := 1 / 10 ^ 10

/-- Accumulated blend weight at output pixel `(i, j)`: each placed sector
whose footprint covers the pixel contributes its mask value there. -/
def blendWeightAt (coll : HColl) (sx sy overlap : ℕ) (pattern mode : String)
    (i j : ℕ) : ℚ :=
  ∑ dr ∈ Finset.range sy, ∑ dc ∈ Finset.range sx,
    match coll.lookup (get_sector_index_from_position pattern dr dc sx sy) with
    | none => 0
    | some _ =>
      if dr * (65 - overlap) ≤ i ∧
          i < min (dr * (65 - overlap) + 65) (sy * (65 - overlap) + overlap) ∧
          dc * (65 - overlap) ≤ j ∧
          j < min (dc * (65 - overlap) + 65) (sx * (65 - overlap) + overlap) then
        sectorWeight overlap mode (i - dr * (65 - overlap)) (j - dc * (65 - overlap))
      else 0

/-- Accumulated weighted height at output pixel `(i, j)`: like
`blendWeightAt` but each contribution is multiplied by the sector's data. -/
def blendContribAt (coll : HColl) (sx sy overlap : ℕ) (pattern mode : String)
    (i j : ℕ) : ℚ :=
  ∑ dr ∈ Finset.range sy, ∑ dc ∈ Finset.range sx,
    match coll.lookup (get_sector_index_from_position pattern dr dc sx sy) with
    | none => 0
    | some g =>
      if dr * (65 - overlap) ≤ i ∧
          i < min (dr * (65 - overlap) + 65) (sy * (65 - overlap) + overlap) ∧
          dc * (65 - overlap) ≤ j ∧
          j < min (dc * (65 - overlap) + 65) (sx * (65 - overlap) + overlap) then
        g (i - dr * (65 - overlap)) (j - dc * (65 - overlap)) *
          sectorWeight overlap mode (i - dr * (65 - overlap)) (j - dc * (65 - overlap))
      else 0

/-- A composited height buffer: dimensions plus pixel values. -/
structure HeightBuffer where
  h : ℕ
  w : ℕ
  val : ℕ → ℕ → ℚ

/-- Whether any display cell's resolved sector index is present in the
collection (if so, the feathering loop runs and indexes the 65-wide mask). -/
def anyPlacement (coll : HColl) (sx sy : ℕ) (pattern : String) : Bool :=
  (List.range sy).any fun dr => (List.range sx).any fun dc =>
    (coll.lookup (get_sector_index_from_position pattern dr dc sx sy)).isSome

/-- `apply_seam_blending` on the heightmap path (`is_texture=False`, which
applies no flip inside the loop): `None` when `overlap < 1` (the caller then
uses the standard path), when the computed output size is negative
(`np.zeros` raises), or when `overlap > 65` and a sector is actually placed
(the feathering loop then indexes past the 65-wide mask and raises).
Otherwise the output pixel is the accumulated weighted contribution divided by
`max(weight, 1e-10)`. -/
def apply_seam_blending_height (coll : HColl) (sx sy overlap : ℕ)
    (pattern mode : String) : Option HeightBuffer :=
  if overlap < 1 then none
  else if ((sx : ℤ) * (65 - (overlap : ℤ)) + overlap < 0 ∨
      (sy : ℤ) * (65 - (overlap : ℤ)) + overlap < 0) then none
  else if 65 < overlap ∧ anyPlacement coll sx sy pattern = true then none
  else some
    { h := ((sy : ℤ) * (65 - (overlap : ℤ)) + overlap).toNat
      w := ((sx : ℤ) * (65 - (overlap : ℤ)) + overlap).toNat
      val := fun i j =>
        blendContribAt coll sx sy overlap pattern mode i j /
          max (blendWeightAt coll sx sy overlap pattern mode i j) seamEps }

lemma blendContrib_const (coll : HColl) (sx sy overlap : ℕ) (pattern mode : String)
    (v : ℚ)
    (hfull : ∀ dr < sy, ∀ dc < sx,
      coll.lookup (get_sector_index_from_position pattern dr dc sx sy)
        = some (fun _ _ => v)) (i j : ℕ) :
    blendContribAt coll sx sy overlap pattern mode i j
      = v * blendWeightAt coll sx sy overlap pattern mode i j := by
  unfold blendContribAt blendWeightAt
  rw [Finset.mul_sum]
  refine Finset.sum_congr rfl ?_
  intro dr hdr
  rw [Finset.mul_sum]
  refine Finset.sum_congr rfl ?_
  intro dc hdc
  rw [hfull dr (Finset.mem_range.mp hdr) dc (Finset.mem_range.mp hdc)]
  by_cases hreg : dr * (65 - overlap) ≤ i ∧
      i < min (dr * (65 - overlap) + 65) (sy * (65 - overlap) + overlap) ∧
      dc * (65 - overlap) ≤ j ∧
      j < min (dc * (65 - overlap) + 65) (sx * (65 - overlap) + overlap)
  · simp only [if_pos hreg]
  · simp only [if_neg hreg, mul_zero]

/-- Counterexample to C4 as stated: with a single sector of constant value 1
and overlap 1, the ramp weight at `edge_pixel = 0` is 0, so the accumulated
weight at output pixel (0,0) is 0 and the normalised output there is 0, not 1. -/
theorem C4_counterexample :
    (apply_seam_blending_height [(0, fun _ _ => (1 : ℚ))] 1 1 1
        "Top-Left Sequential" "Linear").map (fun b => b.val 0 0) = some 0 ∧
      (0 : ℚ) ≠ 1 := by
  refine ⟨?_, by norm_num⟩
  have hsome : apply_seam_blending_height [(0, fun _ _ => (1 : ℚ))] 1 1 1
      "Top-Left Sequential" "Linear" = some
      { h := ((1 : ℤ) * (65 - (1 : ℤ)) + 1).toNat
        w := ((1 : ℤ) * (65 - (1 : ℤ)) + 1).toNat
        val := fun i j =>
          blendContribAt [(0, fun _ _ => (1 : ℚ))] 1 1 1 "Top-Left Sequential" "Linear" i j /
            max (blendWeightAt [(0, fun _ _ => (1 : ℚ))] 1 1 1 "Top-Left Sequential" "Linear" i j)
              seamEps } := by
    unfold apply_seam_blending_height
    rw [if_neg (by norm_num), if_neg (by norm_num), if_neg (by norm_num)]
    rfl
  have hw : sectorWeight 1 "Linear" 0 0 = 0 := by
    unfold sectorWeight
    rw [show List.range 1 = [0] from rfl]
    simp only [List.foldl_cons, List.foldl_nil]
    unfold applyEdgeWeight rampWeight
    norm_num
  have hlook : ([(0, fun _ _ => (1 : ℚ))] : HColl).lookup
      (get_sector_index_from_position "Top-Left Sequential" 0 0 1 1)
      = some (fun _ _ => (1 : ℚ)) := by
    rw [resolver_TL]
    rfl
  have hWeight : blendWeightAt [(0, fun _ _ => (1 : ℚ))] 1 1 1
      "Top-Left Sequential" "Linear" 0 0 = 0 := by
    unfold blendWeightAt
    rw [Finset.sum_range_one, Finset.sum_range_one, hlook]
    norm_num [hw]
  have hContrib : blendContribAt [(0, fun _ _ => (1 : ℚ))] 1 1 1
      "Top-Left Sequential" "Linear" 0 0 = 0 := by
    unfold blendContribAt
    rw [Finset.sum_range_one, Finset.sum_range_one, hlook]
    norm_num [hw]
  rw [hsome, Option.map_some']
  congr 1
  show blendContribAt [(0, fun _ _ => (1 : ℚ))] 1 1 1 "Top-Left Sequential" "Linear" 0 0 /
      max (blendWeightAt [(0, fun _ _ => (1 : ℚ))] 1 1 1 "Top-Left Sequential" "Linear" 0 0)
        seamEps = 0
  rw [hWeight, hContrib]
  exact zero_div _

/-- C4 (amended): for a fully populated grid of sectors all holding constant
value `v`, overlap in {1, 5, 10} and any blend mode, the blended output equals
`v` at every pixel whose accumulated weight reaches the division guard
`1e-10`; at pixels where every contributing mask weight is 0 (the outermost
one-pixel frame of the mosaic, and the seam lines when overlap = 1) the
output is 0 instead of `v`, per the counterexample. -/
theorem C4_uniform_blend (coll : HColl) (sx sy overlap : ℕ) (pattern mode : String)
    (v : ℚ) (hover : overlap = 1 ∨ overlap = 5 ∨ overlap = 10)
    (hfull : ∀ dr < sy, ∀ dc < sx,
      coll.lookup (get_sector_index_from_position pattern dr dc sx sy)
        = some (fun _ _ => v)) :
    (apply_seam_blending_height coll sx sy overlap pattern mode).isSome = true ∧
      ∀ buf, apply_seam_blending_height coll sx sy overlap pattern mode = some buf →
        ∀ i j, seamEps ≤ blendWeightAt coll sx sy overlap pattern mode i j →
          buf.val i j = v := by
  have hov1 : ¬ overlap < 1 := by omega
  have hle : overlap ≤ 65 := by
    rcases hover with h | h | h <;> omega
  have hov2 : ¬ ((sx : ℤ) * (65 - (overlap : ℤ)) + overlap < 0 ∨
      (sy : ℤ) * (65 - (overlap : ℤ)) + overlap < 0) := by
    push_neg
    have hx0 : (0 : ℤ) ≤ (sx : ℤ) * (65 - (overlap : ℤ)) :=
      mul_nonneg (by positivity) (by omega)
    have hy0 : (0 : ℤ) ≤ (sy : ℤ) * (65 - (overlap : ℤ)) :=
      mul_nonneg (by positivity) (by omega)
    omega
  have hov3 : ¬ (65 < overlap ∧ anyPlacement coll sx sy pattern = true) := by
    rintro ⟨h65, _⟩
    omega
  clear hle
  constructor
  · unfold apply_seam_blending_height
    rw [if_neg hov1, if_neg hov2, if_neg hov3]
    rfl
  · intro buf hbuf i j hW
    have hbuf' : buf.val i j =
        blendContribAt coll sx sy overlap pattern mode i j /
          max (blendWeightAt coll sx sy overlap pattern mode i j) seamEps := by
      unfold apply_seam_blending_height at hbuf
      rw [if_neg hov1, if_neg hov2, if_neg hov3] at hbuf
      rw [← Option.some_inj.mp hbuf]
    rw [hbuf', blendContrib_const coll sx sy overlap pattern mode v hfull i j]
    rw [max_eq_left hW]
    have hWpos : blendWeightAt coll sx sy overlap pattern mode i j ≠ 0 := by
      have : (0 : ℚ) < seamEps := by norm_num [seamEps]
      intro hzero
      rw [hzero] at hW
      linarith
    rw [mul_div_assoc, div_self hWpos, mul_one]

/-- Witness for C4 (amended): single constant-3 sector, overlap 5, linear
ramp; the interior pixel (10,10) has accumulated weight 1 ≥ 1e-10 and blended
value exactly 3. -/
theorem C4_uniform_blend_witness :
    seamEps ≤ blendWeightAt [(0, fun _ _ => (3 : ℚ))] 1 1 5
        "Top-Left Sequential" "Linear" 10 10 ∧
      ∀ buf, apply_seam_blending_height [(0, fun _ _ => (3 : ℚ))] 1 1 5
          "Top-Left Sequential" "Linear" = some buf → buf.val 10 10 = 3 := by
  have hlook : ([(0, fun _ _ => (3 : ℚ))] : HColl).lookup
      (get_sector_index_from_position "Top-Left Sequential" 0 0 1 1)
      = some (fun _ _ => (3 : ℚ)) := by
    rw [resolver_TL]
    rfl
  have hfull : ∀ dr < 1, ∀ dc < 1,
      ([(0, fun _ _ => (3 : ℚ))] : HColl).lookup
        (get_sector_index_from_position "Top-Left Sequential" dr dc 1 1)
        = some (fun _ _ => (3 : ℚ)) := by
    intro dr hdr dc hdc
    interval_cases dr
    interval_cases dc
    exact hlook
  have hsw : sectorWeight 5 "Linear" 10 10 = 1 := by
    unfold sectorWeight
    rw [show List.range 5 = [0, 1, 2, 3, 4] from rfl]
    simp only [List.foldl_cons, List.foldl_nil]
    unfold applyEdgeWeight rampWeight
    norm_num
  have hW : seamEps ≤ blendWeightAt [(0, fun _ _ => (3 : ℚ))] 1 1 5
      "Top-Left Sequential" "Linear" 10 10 := by
    unfold blendWeightAt
    rw [Finset.sum_range_one, Finset.sum_range_one, hlook]
    norm_num [hsw, seamEps]
  exact ⟨hW, fun buf hbuf =>
    (C4_uniform_blend [(0, fun _ _ => (3 : ℚ))] 1 1 5 "Top-Left Sequential" "Linear" 3
      (Or.inr (Or.inl rfl)) hfull).2 buf hbuf 10 10 hW⟩

/-- Counterexample to C7 as stated: with overlap 66 (> 65) and a sector
actually placed, the feathering loop indexes the 65-wide weight mask out of
range and the blending raises instead of producing a buffer. -/
theorem C7_counterexample :
    (apply_seam_blending_height [(0, fun _ _ => (0 : ℚ))] 1 1 66
        "Top-Left Sequential" "Linear").isSome = false := by
  have hplace : anyPlacement [(0, fun _ _ => (0 : ℚ))] 1 1 "Top-Left Sequential" = true := by
    unfold anyPlacement
    rw [show List.range 1 = [0] from rfl]
    simp only [List.any_cons, List.any_nil]
    rw [resolver_TL]
    rfl
  unfold apply_seam_blending_height
  rw [if_neg (by norm_num), if_neg (by norm_num), if_pos ⟨by norm_num, hplace⟩]
  rfl

/-- C7 (amended): for `1 ≤ overlap ≤ 65` (which covers the UI's 1..10 range)
the seam-blending path produces a buffer of width
`sectors_x*(65-overlap)+overlap` and height `sectors_y*(65-overlap)+overlap`;
for `overlap > 65` with any sector placed it raises instead (see the
counterexample). -/
theorem C7_blend_output_size (coll : HColl) (sx sy overlap : ℕ)
    (pattern mode : String) (h1 : 1 ≤ overlap) (h65 : overlap ≤ 65) :
    (apply_seam_blending_height coll sx sy overlap pattern mode).isSome = true ∧
      ∀ buf, apply_seam_blending_height coll sx sy overlap pattern mode = some buf →
        buf.w = sx * (65 - overlap) + overlap ∧
          buf.h = sy * (65 - overlap) + overlap := by
  have hov1 : ¬ overlap < 1 := by omega
  have hov2 : ¬ ((sx : ℤ) * (65 - (overlap : ℤ)) + overlap < 0 ∨
      (sy : ℤ) * (65 - (overlap : ℤ)) + overlap < 0) := by
    push_neg
    have hx0 : (0 : ℤ) ≤ (sx : ℤ) * (65 - (overlap : ℤ)) :=
      mul_nonneg (by positivity) (by omega)
    have hy0 : (0 : ℤ) ≤ (sy : ℤ) * (65 - (overlap : ℤ)) :=
      mul_nonneg (by positivity) (by omega)
    omega
  have hov3 : ¬ (65 < overlap ∧ anyPlacement coll sx sy pattern = true) := by
    rintro ⟨hgt, _⟩
    omega
  have hcastw : ((sx : ℤ) * (65 - (overlap : ℤ)) + overlap).toNat
      = sx * (65 - overlap) + overlap := by
    have he : (65 : ℤ) - (overlap : ℤ) = ((65 - overlap : ℕ) : ℤ) := by
      rw [Nat.cast_sub h65]
      norm_num
    rw [he]
    rw [show (sx : ℤ) * ((65 - overlap : ℕ) : ℤ) + (overlap : ℤ)
      = ((sx * (65 - overlap) + overlap : ℕ) : ℤ) by push_cast; ring]
    exact Int.toNat_natCast _
  have hcasth : ((sy : ℤ) * (65 - (overlap : ℤ)) + overlap).toNat
      = sy * (65 - overlap) + overlap := by
    have he : (65 : ℤ) - (overlap : ℤ) = ((65 - overlap : ℕ) : ℤ) := by
      rw [Nat.cast_sub h65]
      norm_num
    rw [he]
    rw [show (sy : ℤ) * ((65 - overlap : ℕ) : ℤ) + (overlap : ℤ)
      = ((sy * (65 - overlap) + overlap : ℕ) : ℤ) by push_cast; ring]
    exact Int.toNat_natCast _
  constructor
  · unfold apply_seam_blending_height
    rw [if_neg hov1, if_neg hov2, if_neg hov3]
    rfl
  · intro buf hbuf
    unfold apply_seam_blending_height at hbuf
    rw [if_neg hov1, if_neg hov2, if_neg hov3] at hbuf
    rw [← Option.some_inj.mp hbuf]
    exact ⟨hcastw, hcasth⟩

/-- Witness for C7 (amended) at a 3×2 grid with overlap 5. -/
theorem C7_blend_output_size_witness :
    (apply_seam_blending_height [] 3 2 5 "Top-Left Sequential" "Linear").isSome = true ∧
      ∀ buf, apply_seam_blending_height [] 3 2 5 "Top-Left Sequential" "Linear" = some buf →
        buf.w = 3 * (65 - 5) + 5 ∧ buf.h = 2 * (65 - 5) + 5 :=
  C7_blend_output_size [] 3 2 5 "Top-Left Sequential" "Linear" (by norm_num) (by norm_num)

/-- An RGB texture tile: cell `(row, col)` to 8-bit channel values. -/
abbrev TexFn := ℕ → ℕ → ℕ × ℕ × ℕ

/-- The loaded texture dictionary. -/
abbrev TColl := List (ℕ × TexFn)

/-- `np.flipud` on a 65-row height grid: row `i` becomes row `64 - i`. -/
def flipV (g : HeightFn) : HeightFn := fun i j => g (64 - i) j

/-- `np.flipud` on a 65-row texture tile. -/
def flipTex (t : TexFn) : TexFn := fun i j => t (64 - i) j

/-- Accumulated blend weight at a pixel for an arbitrary collection (the
weight only depends on which cells have their sector present). -/
def blendWeightAtT (coll : TColl) (sx sy overlap : ℕ) (pattern mode : String)
    (i j : ℕ) : ℚ :=
  ∑ dr ∈ Finset.range sy, ∑ dc ∈ Finset.range sx,
    match coll.lookup (get_sector_index_from_position pattern dr dc sx sy) with
    | none => 0
    | some _ =>
      if dr * (65 - overlap) ≤ i ∧
          i < min (dr * (65 - overlap) + 65) (sy * (65 - overlap) + overlap) ∧
          dc * (65 - overlap) ≤ j ∧
          j < min (dc * (65 - overlap) + 65) (sx * (65 - overlap) + overlap) then
        sectorWeight overlap mode (i - dr * (65 - overlap)) (j - dc * (65 - overlap))
      else 0

/-- Weighted texture accumulation at a pixel (three channels); sectors are
vertically flipped first unless the pattern is the vertical Avatar layout. -/
def blendTexContribAt (coll : TColl) (sx sy overlap : ℕ) (pattern mode : String)
    (i j : ℕ) : ℚ × ℚ × ℚ :=
  ∑ dr ∈ Finset.range sy, ∑ dc ∈ Finset.range sx,
    match coll.lookup (get_sector_index_from_position pattern dr dc sx sy) with
    | none => (0, 0, 0)
    | some t =>
      let td := if pattern = "Avatar Game Layout (2x2 blocks, vertical)" then t
        else flipTex t
      if dr * (65 - overlap) ≤ i ∧
          i < min (dr * (65 - overlap) + 65) (sy * (65 - overlap) + overlap) ∧
          dc * (65 - overlap) ≤ j ∧
          j < min (dc * (65 - overlap) + 65) (sx * (65 - overlap) + overlap) then
        let w := sectorWeight overlap mode
          (i - dr * (65 - overlap)) (j - dc * (65 - overlap))
        let px := td (i - dr * (65 - overlap)) (j - dc * (65 - overlap))
        ((px.1 : ℚ) * w, (px.2.1 : ℚ) * w, (px.2.2 : ℚ) * w)
      else (0, 0, 0)

/-- `np.clip(·, 0, 255).astype(np.uint8)` on one normalised channel. -/
def clampByte (q : ℚ) : ℕ := (min (max q 0) 255).floor.toNat

/-- A composited RGB texture buffer. -/
structure TexBuffer where
  h : ℕ
  w : ℕ
  val : ℕ → ℕ → ℕ × ℕ × ℕ

/-- Whether any display cell's sector index is present in a texture
collection. -/
def anyPlacementT (coll : TColl) (sx sy : ℕ) (pattern : String) : Bool :=
  (List.range sy).any fun dr => (List.range sx).any fun dc =>
    (coll.lookup (get_sector_index_from_position pattern dr dc sx sy)).isSome

/-- `apply_seam_blending` on the texture path (`is_texture=True`): like the
height path but flipping each placed sector outside the vertical Avatar
layout, summing three channels, and clamping the normalised result to
`0..255` bytes. -/
def apply_seam_blending_texture (coll : TColl) (sx sy overlap : ℕ)
    (pattern mode : String) : Option TexBuffer :=
  if overlap < 1 then none
  else if ((sx : ℤ) * (65 - (overlap : ℤ)) + overlap < 0 ∨
      (sy : ℤ) * (65 - (overlap : ℤ)) + overlap < 0) then none
  else if 65 < overlap ∧ anyPlacementT coll sx sy pattern = true then none
  else some
    { h := ((sy : ℤ) * (65 - (overlap : ℤ)) + overlap).toNat
      w := ((sx : ℤ) * (65 - (overlap : ℤ)) + overlap).toNat
      val := fun i j =>
        let wgt := max (blendWeightAtT coll sx sy overlap pattern mode i j) seamEps
        let acc := blendTexContribAt coll sx sy overlap pattern mode i j
        (clampByte (acc.1 / wgt), clampByte (acc.2.1 / wgt), clampByte (acc.2.2 / wgt)) }

/-- The explicit configuration of one composite request (the UI state that
`update_display` reads). -/
structure Params where
  heights : HColl
  textures : TColl
  sx : ℕ
  sy : ℕ
  pattern : String
  apply_pattern : Bool
  enable_textures : Bool
  texture_layer : String
  blend_on : Bool
  overlap : ℕ
  blend_mode : String
  rotation : ℕ

/-- The buffers and bookkeeping `update_display` produces. -/
structure DisplayResult where
  heightH : ℕ
  heightW : ℕ
  heightAt : HeightFn
  texture : Option TexBuffer
  displayed : List ℕ
  missing : List ℕ

/-- The heightmap sector index of a display cell: the selected pattern when
"Apply to Heightmap" is on, plain bottom-left sequential otherwise. -/
def stdHeightIndex (pattern : String) (apply_pattern : Bool) (sx sy : ℕ)
    (cell : ℕ × ℕ) : ℕ :=
  if apply_pattern then get_sector_index_from_position pattern cell.1 cell.2 sx sy
  else (sy - 1 - cell.1) * sx + cell.2

/-- Display cells in traversal order: rows top to bottom, columns left to
right. -/
def cellList (sy sx : ℕ) : List (ℕ × ℕ) :=
  (List.range sy).flatMap fun r => (List.range sx).map fun c => (r, c)

/-- Mutable state of the standard assembly loop. -/
structure StdState where
  heightAt : HeightFn
  texAt : ℕ → ℕ → ℕ × ℕ × ℕ
  displayed : List ℕ
  missing : List ℕ

/-- One iteration of the standard assembly loop: place the cell's height
sector (flipped unless the vertical Avatar layout is applied to the
heightmap), record it as displayed, optionally place the texture (shadow
layer unflipped, otherwise flipped outside the vertical Avatar layout), or
record the cell's height index as missing. -/
def placeCell (heights : HColl) (textures : TColl) (sx sy : ℕ) (pattern : String)
    (apply_pattern : Bool) (texOn : Bool) (texture_layer : String)
    (st : StdState) (cell : ℕ × ℕ) : StdState :=
  let r := cell.1
  let c := cell.2
  let hmIdx := stdHeightIndex pattern apply_pattern sx sy cell
  let texIdx := get_sector_index_from_position pattern r c sx sy
  match heights.lookup hmIdx with
  | none => { st with missing := st.missing ++ [hmIdx] }
  | some g =>
    let placedH :=
      if apply_pattern ∧ pattern = "Avatar Game Layout (2x2 blocks, vertical)" then g
      else flipV g
    let st1 : StdState :=
      { st with
        heightAt := fun i j =>
          if r * 65 ≤ i ∧ i < r * 65 + 65 ∧ c * 65 ≤ j ∧ j < c * 65 + 65 then
            placedH (i - r * 65) (j - c * 65)
          else st.heightAt i j
        displayed := st.displayed ++ [hmIdx] }
    if texOn then
      match textures.lookup texIdx with
      | none => st1
      | some t =>
        let placedT :=
          if texture_layer = "shadow" then t
          else if pattern = "Avatar Game Layout (2x2 blocks, vertical)" then t
          else flipTex t
        { st1 with
          texAt := fun i j =>
            if r * 65 ≤ i ∧ i < r * 65 + 65 ∧ c * 65 ≤ j ∧ j < c * 65 + 65 then
              placedT (i - r * 65) (j - c * 65)
            else st1.texAt i j }
    else st1

/-- `update_display` up to (but excluding) the final rotation step, which is
the only consumer of the rotation setting.  Returns `None` when no sectors
are loaded (the Python code returns early) or when the seam-blending call
raises. -/
def updateDisplayBase (heights : HColl) (textures : TColl) (sx sy : ℕ)
    (pattern : String) (apply_pattern enable_textures : Bool)
    (texture_layer : String) (blend_on : Bool) (overlap : ℕ)
    (blend_mode : String) : Option DisplayResult :=
  if heights.isEmpty then none
  else if blend_on && decide (0 < overlap) then
    match apply_seam_blending_height
        (if apply_pattern then heights else heights.map fun q => (q.1, flipV q.2))
        sx sy overlap pattern blend_mode with
    | none => none
    | some hb =>
      if enable_textures && !textures.isEmpty then
        match apply_seam_blending_texture textures sx sy overlap pattern blend_mode with
        | none => none
        | some tb => some
          { heightH := hb.h, heightW := hb.w, heightAt := hb.val,
            texture := some tb,
            displayed := heights.map Prod.fst, missing := [] }
      else some
        { heightH := hb.h, heightW := hb.w, heightAt := hb.val,
          texture := none,
          displayed := heights.map Prod.fst, missing := [] }
  else
    some
      { heightH := sy * 65
        heightW := sx * 65
        heightAt := ((cellList sy sx).foldl
          (placeCell heights textures sx sy pattern apply_pattern
            (enable_textures && !textures.isEmpty) texture_layer)
          ⟨fun _ _ => 0, fun _ _ => (0, 0, 0), [], []⟩).heightAt
        texture :=
          if enable_textures && !textures.isEmpty then
            some ⟨sy * 65, sx * 65, ((cellList sy sx).foldl
              (placeCell heights textures sx sy pattern apply_pattern
                (enable_textures && !textures.isEmpty) texture_layer)
              ⟨fun _ _ => 0, fun _ _ => (0, 0, 0), [], []⟩).texAt⟩
          else none
        displayed := ((cellList sy sx).foldl
          (placeCell heights textures sx sy pattern apply_pattern
            (enable_textures && !textures.isEmpty) texture_layer)
          ⟨fun _ _ => 0, fun _ _ => (0, 0, 0), [], []⟩).displayed
        missing := ((cellList sy sx).foldl
          (placeCell heights textures sx sy pattern apply_pattern
            (enable_textures && !textures.isEmpty) texture_layer)
          ⟨fun _ _ => 0, fun _ _ => (0, 0, 0), [], []⟩).missing }

/-- One 90° counter-clockwise rotation (`np.rot90` with `k = 1`). -/
def rot90Tex (t : TexBuffer) : TexBuffer :=
  { h := t.w, w := t.h, val := fun i j => t.val j (t.w - 1 - i) }

/-- `np.rot90` iterated `k` times. -/
def rotKTex : ℕ → TexBuffer → TexBuffer
  | 0, t => t
  | k + 1, t => rot90Tex (rotKTex k t)

/-- The final rotation step of `update_display`: applied to the finished
texture buffer only, with 90° mapping to `np.rot90(k=3)`, 180° to `k=2` and
270° to `k=1`; other values (including 0) leave the texture unchanged. -/
def rotateTexture (rotation : ℕ) : Option TexBuffer → Option TexBuffer
  | none => none
  | some t =>
    if rotation ≠ 0 then
      if rotation = 90 then some (rotKTex 3 t)
      else if rotation = 180 then some (rotKTex 2 t)
      else if rotation = 270 then some (rotKTex 1 t)
      else some t
    else some t

/-- `update_display`: the composite pipeline followed by the rotation step. -/
def update_display (p : Params) : Option DisplayResult :=
  (updateDisplayBase p.heights p.textures p.sx p.sy p.pattern p.apply_pattern
      p.enable_textures p.texture_layer p.blend_on p.overlap p.blend_mode).map
    fun r => { r with texture := rotateTexture p.rotation r.texture }

lemma rotateTexture_zero (x : Option TexBuffer) : rotateTexture 0 x = x := by
  cases x <;> rfl

lemma update_display_set_rotation (p : Params) (rot : ℕ) :
    update_display { p with rotation := rot }
      = (updateDisplayBase p.heights p.textures p.sx p.sy p.pattern p.apply_pattern
          p.enable_textures p.texture_layer p.blend_on p.overlap p.blend_mode).map
        fun r => { r with texture := rotateTexture rot r.texture } := rfl

/-- C8: the rotation setting only affects the finished texture buffer: runs
that differ only in rotation produce identical height buffers (and displayed/
missing bookkeeping), and the texture of a rotated run is the unrotated run's
texture passed through the rotation step. -/
theorem C8_rotation_texture_only (p : Params) (rot1 rot2 : ℕ)
    (h1 : rot1 = 0 ∨ rot1 = 90 ∨ rot1 = 180 ∨ rot1 = 270)
    (h2 : rot2 = 0 ∨ rot2 = 90 ∨ rot2 = 180 ∨ rot2 = 270) :
    ((update_display { p with rotation := rot1 }).map fun r =>
        (r.heightAt, r.heightH, r.heightW, r.displayed, r.missing))
      = ((update_display { p with rotation := rot2 }).map fun r =>
        (r.heightAt, r.heightH, r.heightW, r.displayed, r.missing)) ∧
    (update_display { p with rotation := rot1 }).map (fun r => r.texture)
      = (update_display { p with rotation := 0 }).map fun r =>
        rotateTexture rot1 r.texture := by
  rw [update_display_set_rotation p rot1, update_display_set_rotation p rot2,
    update_display_set_rotation p 0]
  cases updateDisplayBase p.heights p.textures p.sx p.sy p.pattern p.apply_pattern
      p.enable_textures p.texture_layer p.blend_on p.overlap p.blend_mode with
  | none => exact ⟨rfl, rfl⟩
  | some r =>
    refine ⟨rfl, ?_⟩
    simp only [Option.map_some']
    rw [rotateTexture_zero]

/-- A concrete composite configuration for the C8 witness. -/
def exampleParams : Params :=
  { heights := [(0, fun _ _ => (2 : ℚ))]
    textures := []
    sx := 1
    sy := 1
    pattern := "Top-Left Sequential"
    apply_pattern := false
    enable_textures := false
    texture_layer := "terrain"
    blend_on := false
    overlap := 2
    blend_mode := "Linear"
    rotation := 0 }

/-- Witness for C8 at a concrete configuration and rotations 90 and 270. -/
theorem C8_rotation_texture_only_witness :
    ((update_display { exampleParams with rotation := 90 }).map fun r =>
        (r.heightAt, r.heightH, r.heightW, r.displayed, r.missing))
      = ((update_display { exampleParams with rotation := 270 }).map fun r =>
        (r.heightAt, r.heightH, r.heightW, r.displayed, r.missing)) :=
  (C8_rotation_texture_only exampleParams 90 270 (by norm_num) (by norm_num)).1

lemma stdFold_missing (heights : HColl) (textures : TColl) (sx sy : ℕ)
    (pattern : String) (apply_pattern texOn : Bool) (texture_layer : String) :
    ∀ (cells : List (ℕ × ℕ)) (st : StdState),
      ((cells.foldl
          (placeCell heights textures sx sy pattern apply_pattern texOn texture_layer)
          st).missing)
        = st.missing ++ ((cells.filter fun cell =>
            (heights.lookup (stdHeightIndex pattern apply_pattern sx sy cell)).isNone).map
          (stdHeightIndex pattern apply_pattern sx sy)) := by
  intro cells
  induction cells with
  | nil => intro st; simp
  | cons cell rest ih =>
    intro st
    rw [List.foldl_cons, List.filter_cons]
    cases hl : heights.lookup (stdHeightIndex pattern apply_pattern sx sy cell) with
    | none =>
      have hplace : placeCell heights textures sx sy pattern apply_pattern texOn
          texture_layer st cell
          = { st with missing := st.missing ++ [stdHeightIndex pattern apply_pattern sx sy cell] } := by
        simp only [placeCell]
        rw [hl]
      rw [hplace, ih]
      simp [hl, List.append_assoc]
    | some g =>
      have hmiss : (placeCell heights textures sx sy pattern apply_pattern texOn
          texture_layer st cell).missing = st.missing := by
        simp only [placeCell]
        rw [hl]
        cases texOn with
        | false => rfl
        | true =>
          cases textures.lookup (get_sector_index_from_position pattern cell.1 cell.2 sx sy)
            with
          | none => rfl
          | some t => rfl
      rw [ih, hmiss]
      simp [hl]

/-- The composite configuration of the C5 counterexample: a 2×2 grid whose
collection lacks exactly the expected index 3, composed on the seam-blending
path. -/
def missingSectorParams : Params :=
  { heights := [(0, fun _ _ => (0 : ℚ)), (1, fun _ _ => (0 : ℚ)), (2, fun _ _ => (0 : ℚ))]
    textures := []
    sx := 2
    sy := 2
    pattern := "Top-Left Sequential"
    apply_pattern := true
    enable_textures := false
    texture_layer := "terrain"
    blend_on := true
    overlap := 2
    blend_mode := "Linear"
    rotation := 0 }

/-- Counterexample to C5 as stated: on the seam-blending path the missing
count is reported as 0 even though the display cell (1,1) expects sector 3,
which is absent from the collection. -/
theorem C5_counterexample :
    (missingSectorParams.heights.lookup
        (get_sector_index_from_position missingSectorParams.pattern 1 1 2 2)).isNone
      = true ∧
    (update_display missingSectorParams).map (fun r => r.missing.length) = some 0 := by
  constructor
  · decide
  · decide

/-- C5 (amended): on the standard (no-blend) path the missing list reported
alongside the buffer is exactly the list of height indices of display cells
whose sector is absent (so a 2×2 grid lacking one expected index reports
missing count 1, with no exception); on the seam-blending path, however, the
missing list is always reported empty regardless of absent sectors, per the
counterexample. -/
theorem C5_missing_reporting :
    (∀ p : Params, p.heights.isEmpty = false →
      (p.blend_on && decide (0 < p.overlap)) = false →
      ∀ r, update_display p = some r →
        r.missing = ((cellList p.sy p.sx).filter fun cell =>
            (p.heights.lookup
              (stdHeightIndex p.pattern p.apply_pattern p.sx p.sy cell)).isNone).map
          (stdHeightIndex p.pattern p.apply_pattern p.sx p.sy)) ∧
    (∀ p : Params, (p.blend_on && decide (0 < p.overlap)) = true →
      ∀ r, update_display p = some r → r.missing = []) := by
  constructor
  · intro p hne hblend r hr
    unfold update_display updateDisplayBase at hr
    rw [hne, hblend] at hr
    rw [if_neg (by simp), if_neg (by simp)] at hr
    rw [Option.map_some'] at hr
    rw [← Option.some_inj.mp hr]
    show ((cellList p.sy p.sx).foldl
        (placeCell p.heights p.textures p.sx p.sy p.pattern p.apply_pattern
          (p.enable_textures && !p.textures.isEmpty) p.texture_layer)
        ⟨fun _ _ => 0, fun _ _ => (0, 0, 0), [], []⟩).missing = _
    rw [stdFold_missing]
    simp
  · intro p hblend r hr
    unfold update_display updateDisplayBase at hr
    rw [hblend] at hr
    split at hr
    · exact absurd hr (by simp)
    · rw [if_pos rfl] at hr
      split at hr
      · exact absurd hr (by simp)
      · split at hr
        · split at hr
          · exact absurd hr (by simp)
          · rw [Option.map_some'] at hr
            rw [← Option.some_inj.mp hr]
        · rw [Option.map_some'] at hr
          rw [← Option.some_inj.mp hr]

/-- The C5 witness configuration: the same 2×2 collection lacking sector 3,
composed on the standard path. -/
def stdMissingParams : Params :=
  { heights := [(0, fun _ _ => (0 : ℚ)), (1, fun _ _ => (0 : ℚ)), (2, fun _ _ => (0 : ℚ))]
    textures := []
    sx := 2
    sy := 2
    pattern := "Top-Left Sequential"
    apply_pattern := true
    enable_textures := false
    texture_layer := "terrain"
    blend_on := false
    overlap := 2
    blend_mode := "Linear"
    rotation := 0 }

/-- Witness for C5 (amended): the standard path over a 2×2 grid missing
exactly sector 3 reports a missing count of 1 and produces a result (no
exception). -/
theorem C5_missing_reporting_witness :
    (update_display stdMissingParams).map (fun r => r.missing.length) = some 1 := by
  have hne : stdMissingParams.heights.isEmpty = false := by decide
  have hblend : (stdMissingParams.blend_on &&
      decide (0 < stdMissingParams.overlap)) = false := by decide
  have hsome : (update_display stdMissingParams).isSome = true := by decide
  obtain ⟨r, hr⟩ := Option.isSome_iff_exists.mp hsome
  have hmiss := C5_missing_reporting.1 stdMissingParams hne hblend r hr
  rw [hr, Option.map_some', hmiss]
  decide
